import Mathlib

/-!
Verification development for the chalk resolution engine and its lowering
front end. The definitions shallowly embed the Rust sources:

* `src/src/solve/slg/context.rs` — the SLG `Context` implementation for
  `Arc<ir::ProgramEnvironment>`: `program_clauses`, `truncate_goal`,
  `truncate_answer`, `into_ex_clause`.
* `chalk-integration/src/lowering/env.rs` — the lowering environment:
  `Env::introduce`, `Env::in_binders`, the lookup functions, and the
  per-item checks of `ProgramLowerer::gather_ids`.
* `chalk-integration/src/lowering.rs` — the AST-to-IR lowering pass:
  where clauses, trait bounds, types, projections, custom clauses and
  trait declarations.

Identifiers (`string_cache` atoms in the source) are modelled as natural
numbers; BTreeMaps are modelled as association lists with
overwrite-on-collision insertion, which matches the only BTreeMap
operations the sources use (`insert`/`collect`, `get`, `len`).
-/

set_option maxHeartbeats 1000000

namespace Chalk

/-- Identifier atoms (`string_cache::DefaultAtom` in the source), modelled
as natural numbers. -/
abbrev Ident := Nat

/-- Association-list lookup, the model of `BTreeMap::get`: the first entry
with the given key. -/
def findVal {K V : Type} [DecidableEq K] : List (K × V) → K → Option V
  | [], _ => none
  | (k, v) :: rest, key => if key = k then some v else findVal rest key

/-- Keys of an association list. -/
def keysOf {K V : Type} (m : List (K × V)) : List K := m.map Prod.fst

/-- Association-list insertion with overwrite-on-collision, the model of
`BTreeMap::insert`: an existing entry with the same key is replaced in
place, otherwise the entry is appended. -/
def insertMap {K V : Type} [DecidableEq K] : List (K × V) → K → V → List (K × V)
  | [], k, v => [(k, v)]
  | (k', v') :: rest, k, v =>
    if k = k' then (k, v) :: rest else (k', v') :: insertMap rest k v

/-- The model of collecting an iterator of key-value pairs into a
`BTreeMap`: entries are inserted in order, later entries overwriting
earlier ones with the same key. -/
def collectMap {K V : Type} [DecidableEq K] (l : List (K × V)) : List (K × V) :=
  l.foldl (fun m kv => insertMap m kv.1 kv.2) []

/-! ## The SLG context (src/src/solve/slg/context.rs)

The types below embed exactly the structure used by the `Context`
implementation on `Arc<ir::ProgramEnvironment>`. The clause and goal types
themselves, as well as the `CouldMatch` test and
`DomainGoal::into_program_clause` (which live in `ir` code outside the
given source excerpt), are taken as type and function parameters. -/

/-- The ordered set of locally-assumed clauses in scope at a goal
(`ir::Environment`): only its `clauses` field is used by
`program_clauses`. -/
structure SlgEnvironment (E : Type) where
  clauses : List E

/-- The globally registered clause database (`ir::ProgramEnvironment`):
only its `program_clauses` field is used here. -/
structure SlgProgram (P : Type) where
  program_clauses : List P

/-- Embedding of `Context::program_clauses` for `SlgContext`
(context.rs, lines 177-194): the environment's clauses are filtered by
`could_match` against the goal and converted with `into_program_clause`;
the global program clauses are filtered by `could_match`; the two
sequences are chained, environment clauses first. -/
def program_clauses {E P G : Type} (could_match_env : E → G → Bool)
    (could_match : P → G → Bool) (into_program_clause : E → P)
    (self : SlgProgram P) (environment : SlgEnvironment E) (goal : G) : List P :=
  let environment_clauses :=
    (environment.clauses.filter (fun env_clause => could_match_env env_clause goal)).map
      (fun env_clause => into_program_clause env_clause)
  let prog_clauses := self.program_clauses.filter (fun clause => could_match clause goal)
  environment_clauses ++ prog_clauses

/-- Literals of an ex-clause (`solve::slg::Literal`): positive or negative
subgoals. -/
inductive Literal (G : Type) where
  | positive (goal : G)
  | negative (goal : G)
deriving DecidableEq

/-- The resolvent of one proof step (`solve::slg::ExClause`): remaining
subgoal literals plus accumulated region constraints. Only the two fields
touched by `into_ex_clause` are modelled. -/
structure ExClause (G C : Type) where
  subgoals : List (Literal G)
  constraints : List C
deriving DecidableEq

/-- The outcome of a successful unification
(`solve::infer::unify::UnificationResult`): emitted subgoals and region
constraints. -/
structure SlgUnificationResult (G C : Type) where
  goals : List G
  constraints : List C

/-- Embedding of `UnificationResult::into_ex_clause` (context.rs, lines
339-346). The source extends the ex-clause in place; the model returns the
updated ex-clause. The `.casted()` adapter in the source is an injection of
goals into literal payloads and is the identity here. -/
def into_ex_clause {G C : Type} (self : SlgUnificationResult G C)
    (ex_clause : ExClause G C) : ExClause G C :=
  { subgoals := ex_clause.subgoals ++ self.goals.map Literal.positive
    constraints := ex_clause.constraints ++ self.constraints }

/-! ## Truncation (context.rs, lines 196-218)

`truncate_goal` and `truncate_answer` both destructure the result of
`truncate::truncate` and return `Some(value)` exactly when the `overflow`
flag is set. The truncation pass itself (`solve/truncate.rs`) is not among
the given sources, so it is modelled from the spec below. -/

/-- Syntactic term trees standing in for goals: what matters to truncation
is only the tree shape and its node count. -/
inductive TTree where
  | leaf : TTree
  | node : TTree → TTree → TTree
deriving DecidableEq

/-- Syntactic size: the number of nodes in the tree. -/
def TTree.size : TTree → Nat
  | .leaf => 1
  | .node l r => 1 + l.size + r.size

/-- Depth-cutting approximation: subtrees below the given depth are
replaced by fresh placeholders (leaves), the shape of chalk's truncation. -/
def TTree.cut : Nat → TTree → TTree
  | 0, _ => .leaf
  | _ + 1, .leaf => .leaf
  | d + 1, .node l r => .node (l.cut d) (r.cut d)

/-- Result record of the truncation pass (`truncate::Truncated`). -/
structure Truncated (T : Type) where
  overflow : Bool
  value : T

/-- Modelled from the spec: `truncate::truncate` (solve/truncate.rs, not
among the given sources). Per the spec, if the value's syntactic size
(nodes in its tree) exceeds `max_size` it produces a truncated/approximated
replacement with the overflow flag set; otherwise it reports no overflow
and leaves the value unchanged. -/
def truncate {T : Type} (size : T → Nat) (approx : T → T) (max_size : Nat)
    (value : T) : Truncated T :=
  if size value > max_size then { overflow := true, value := approx value }
  else { overflow := false, value := value }

/-- Embedding of `Context::truncate_goal` (context.rs, lines 198-206):
destructure `truncate` and return `Some(value)` iff `overflow`. -/
def truncate_goal (max_size : Nat) (subgoal : TTree) : Option TTree :=
  let t := truncate TTree.size (fun g => g.cut max_size) max_size subgoal
  if t.overflow then some t.value else none

/-- Answer substitutions (`ir::Substitution`): an ordered list of term
trees; its syntactic size is the total node count. -/
def substSize (subst : List TTree) : Nat := (subst.map TTree.size).sum

/-- Embedding of `Context::truncate_answer` (context.rs, lines 210-218):
same shape as `truncate_goal`, applied to a substitution. -/
def truncate_answer (max_size : Nat) (subst : List TTree) : Option (List TTree) :=
  let t := truncate substSize (fun s => s.map (fun x => x.cut max_size)) max_size subst
  if t.overflow then some t.value else none

/-! ## Opaque-type revelation (spec §6 query modes, tests/test/opaque_types.rs)

The resolution engine that decides the `opaque_reveal` scenario is not
among the given sources (only its test is), so the relevant fragment is
modelled from the spec. -/

/-- An opaque type declaration: its declared capability bounds and the
hidden concrete type. -/
structure OpaqueTyDecl where
  bounds : List Ident
  hiddenTy : Ident
deriving DecidableEq

/-- A program for the opaque-revelation scenario: positive impls
`(type, trait)` and opaque type declarations. -/
structure RevealProgram where
  impls : List (Ident × Ident)
  opaqueTys : List (Ident × OpaqueTyDecl)
deriving DecidableEq

/-- Modelled from the spec: whether the engine can prove
`Implemented(ty: tr)`. Under ordinary visibility an opaque type satisfies
exactly its declared bounds; inside a `Reveal`-flagged context it
additionally unfolds to its hidden concrete form ("a `Reveal` domain-goal
flag toggles whether opaque types unfold to their hidden concrete form
during the search"). `fuel` bounds the unfolding chain. -/
def holdsImplemented (p : RevealProgram) (reveal : Bool) :
    Nat → Ident → Ident → Bool
  | 0, _, _ => false
  | fuel + 1, ty, tr =>
    p.impls.contains (ty, tr) ||
    (match findVal p.opaqueTys ty with
     | some d => d.bounds.contains tr || (reveal && holdsImplemented p reveal fuel d.hiddenTy tr)
     | none => false)

/-- Outcome of the top-level query in this variable-free scenario: a unique
answer with the empty substitution, or no solution. -/
inductive SolveResult where
  | uniqueEmptySubst
  | noSolution
deriving DecidableEq

/-- Modelled from the spec: solving the ground query `ty: tr`, with the
`Reveal` flag taken from the environment the goal is evaluated in. -/
def solveImplements (p : RevealProgram) (reveal : Bool) (ty tr : Ident) : SolveResult :=
  if holdsImplemented p reveal (p.opaqueTys.length + 1) ty tr then .uniqueEmptySubst
  else .noSolution

/-! ## The lowering environment (chalk-integration/src/lowering/env.rs)

`Env` maps identifiers to declarations and bound parameters. The source
keeps separate `*_ids : Ident -> Id` and `*_kinds : Id -> TypeKind` maps;
since the ids are opaque tokens in bijection with the names, the model
fuses each pair into a single `Ident -> binder-list` map (the `TypeKind`'s
`sort` field is determined by which map an entry lives in, and its `name`
field is the key itself). -/

/-- Kinds of type variables (`chalk_ir::TyKind` as used in variable
kinds). -/
inductive TyVKind where
  | general
  | integer
  | float
deriving DecidableEq

/-- Kinds of bound parameters (`chalk_ir::VariableKind`). The `Const`
variant carries the const's type in the source; this lowering always uses
`u32` there (`get_type_of_u32`), so the payload is omitted. -/
inductive VariableKind where
  | ty (k : TyVKind)
  | lifetime
  | const
deriving DecidableEq

/-- Surface parameter kinds (`chalk_parse::ast::Kind`), used in error
payloads and kind comparisons. -/
inductive Kind where
  | ty
  | lifetime
  | const
deriving DecidableEq

/-- The `Kinded` projection for `chalk_ir::VariableKind` (lowering.rs,
lines 1438-1446). -/
def kindOfVK : VariableKind → Kind
  | .ty _ => .ty
  | .lifetime => .lifetime
  | .const => .const

/-- A bound variable: de Bruijn depth plus index within its binder
(`chalk_ir::BoundVar`). `DebruijnIndex::INNERMOST` is depth 0. -/
structure BoundVar where
  debruijn : Nat
  index : Nat
deriving DecidableEq

/-- `BoundVar::shifted_in`: shift one binder level outward (the variable
now sits under one more binder). -/
def shiftedIn (b : BoundVar) : BoundVar :=
  { debruijn := b.debruijn + 1, index := b.index }

/-- The lowering errors (`chalk_integration::error::RustIrError`),
restricted to the variants reachable from the embedded fragment. -/
inductive RustIrError where
  | invalidParameterName (identifier : Ident)
  | invalidTraitName (identifier : Ident)
  | notTrait (identifier : Ident)
  | notStruct (identifier : Ident)
  | duplicateOrShadowedParameters
  | incorrectNumberOfTypeParameters (identifier : Ident) (expected actual : Nat)
  | incorrectNumberOfAssociatedTypeParameters (identifier : Ident) (expected actual : Nat)
  | incorrectParameterKind (identifier : Ident) (expected actual : Kind)
  | incorrectTraitParameterKind (identifier : Ident) (expected actual : Kind)
  | incorrectAssociatedTypeParameterKind (identifier : Ident) (expected actual : Kind)
  | cannotApplyTypeParameter (identifier : Ident)
  | missingAssociatedType (identifier : Ident)
  | autoTraitAssociatedTypes (identifier : Ident)
  | autoTraitParameters (identifier : Ident)
  | autoTraitWhereClauses (identifier : Ident)
deriving DecidableEq

/-- `LowerResult<T>`. -/
abbrev LowerResult (T : Type) := Except RustIrError T

/-- The parameter map: identifier to parameter kind and bound variable
(`ParameterMap = BTreeMap<Ident, WithKind<ChalkIr, BoundVar>>`). -/
abbrev ParameterMap := List (Ident × (VariableKind × BoundVar))

/-- The lowering environment (`Env<'k>`). Maps fuse the `*_ids` and
`*_kinds` pairs of the source as described above; `auto_traits` and
`associated_ty_lookups` keep their source shapes. -/
structure Env where
  adt_kinds : List (Ident × List VariableKind)
  fn_def_kinds : List (Ident × List VariableKind)
  closure_kinds : List (Ident × List VariableKind)
  trait_kinds : List (Ident × List VariableKind)
  opaque_ty_kinds : List (Ident × List VariableKind)
  foreign_ty_ids : List Ident
  associated_ty_lookups : List ((Ident × Ident) × List VariableKind)
  auto_traits : List (Ident × Bool)
  parameter_map : ParameterMap
deriving DecidableEq

/-- The new-binder entries built by `Env::introduce` from
`binders.into_iter().enumerate()` (env.rs, lines 360-366): the i-th
introduced parameter becomes `BoundVar::new(DebruijnIndex::INNERMOST, i)`,
written here as a recursion carrying the next index. -/
def newBinderEntries : Nat → List (VariableKind × Ident) → ParameterMap
  | _, [] => []
  | i, (kind, name) :: rest => (name, (kind, ⟨0, i⟩)) :: newBinderEntries (i + 1) rest

/-- Embedding of `Env::introduce` (env.rs, lines 350-384): new parameters
get innermost indices in iteration order, existing parameters are shifted
in, the two sequences are collected into a map, and a length mismatch
(meaning a duplicate or shadowed name) is a hard error. -/
def Env.introduce (env : Env) (binders : List (VariableKind × Ident)) :
    LowerResult Env :=
  let news := newBinderEntries 0 binders
  let len := binders.length
  let shifted := env.parameter_map.map (fun kv => (kv.1, (kv.2.1, shiftedIn kv.2.2)))
  let parameter_map := collectMap (shifted ++ news)
  if parameter_map.length ≠ env.parameter_map.length + len then
    .error .duplicateOrShadowedParameters
  else
    .ok { env with parameter_map := parameter_map }

/-- The environment at the start of lowering an item
(`Env::from_lowerer` with an empty `ProgramLowerer`, specialised to empty
maps): used below to exercise the lowering functions on concrete
programs. -/
def emptyEnv : Env :=
  { adt_kinds := [], fn_def_kinds := [], closure_kinds := [], trait_kinds := []
    opaque_ty_kinds := [], foreign_ty_ids := [], associated_ty_lookups := []
    auto_traits := [], parameter_map := [] }

/-- Sample binder list for exercising `Env.introduce`: two type parameters
with distinct names (atoms 10 and 11). -/
def introduceSample : List (VariableKind × Ident) :=
  [(VariableKind.ty .general, 10), (VariableKind.ty .general, 11)]

/-- The environment produced by introducing `introduceSample` into the
empty environment. -/
def introducedEnvSample : Env :=
  { emptyEnv with
    parameter_map := [(10, (VariableKind.ty .general, ⟨0, 0⟩)),
                      (11, (VariableKind.ty .general, ⟨0, 1⟩))] }

/-- A value abstracted over a list of parameter kinds
(`chalk_ir::Binders<T>`). -/
structure Binders (T : Type) where
  binders : List VariableKind
  value : T
deriving DecidableEq

/-- Embedding of `Env::in_binders` (env.rs, lines 386-399): introduce the
binders, run the body in the extended environment, and wrap the result in
`Binders` carrying the parameter kinds. -/
def Env.in_binders {T : Type} (env : Env) (binders : List (VariableKind × Ident))
    (op : Env → LowerResult T) : LowerResult (Binders T) := do
  let env' ← env.introduce binders
  let value ← op env'
  pure { binders := binders.map Prod.fst, value := value }

/-! ## Lowered IR fragments (chalk_ir)

Only the structure relevant to the lowering pass is embedded: type names,
types, generic arguments and aliases. Ids are the declaration names, as in
the environment maps. -/

/-- `chalk_ir::TypeName`, restricted to the variants produced by the
embedded lowering fragment. -/
inductive TypeName where
  | adt (id : Ident)
  | fnDef (id : Ident)
  | closure (id : Ident)
  | opaqueType (id : Ident)
  | foreign (id : Ident)
deriving DecidableEq

mutual

/-- Lowered types (`chalk_ir::TyData`), restricted to the variants the
embedded AST fragment can produce. -/
inductive LTy where
  | apply (name : TypeName) (substitution : List LGenericArg)
  | boundVar (b : BoundVar)
  | alias (a : LAlias)

/-- Lowered aliases (`chalk_ir::AliasTy`): projections carry the
associated type id — here the `(trait, name)` key of the lookup map — and
opaque aliases carry the opaque type id. -/
inductive LAlias where
  | projection (associated_ty_id : Ident × Ident) (substitution : List LGenericArg)
  | opaqueRef (opaque_ty_id : Ident) (substitution : List LGenericArg)

/-- Lowered generic arguments (`chalk_ir::GenericArg`). -/
inductive LGenericArg where
  | ty (t : LTy)
  | lifetime (l : LLifetime)
  | const (c : LConst)

/-- Lowered lifetimes (`chalk_ir::LifetimeData`). -/
inductive LLifetime where
  | boundVar (b : BoundVar)

/-- Lowered consts (`chalk_ir::ConstData`): a bound variable (always of
type u32 in this lowering) or a concrete value. -/
inductive LConst where
  | boundVar (b : BoundVar)
  | concrete (value : Nat)

end

/-- The `Kinded` projection for `chalk_ir::GenericArg` (lowering.rs, lines
1448-1457). -/
def kindOfArg : LGenericArg → Kind
  | .ty _ => .ty
  | .lifetime _ => .lifetime
  | .const _ => .const

/-- `rust_ir::TraitBound` after lowering: trait id and the arguments other
than `Self`. -/
structure LTraitBound where
  trait_id : Ident
  args_no_self : List LGenericArg

/-- `chalk_ir::TraitRef`: trait id and full substitution (self type
first). -/
structure LTraitRef where
  trait_id : Ident
  substitution : List LGenericArg

/-- `chalk_ir::ProjectionTy`: associated type id and full substitution
(the projection's own arguments followed by the trait substitution). -/
structure LProjectionTy where
  associated_ty_id : Ident × Ident
  substitution : List LGenericArg

/-- `rust_ir::TraitBound::as_trait_ref` (chalk-solve, outside the given
sources): the trait ref's substitution is the self type followed by the
bound's remaining arguments. -/
def asTraitRef (tb : LTraitBound) (self_ty : LTy) : LTraitRef :=
  { trait_id := tb.trait_id, substitution := LGenericArg.ty self_ty :: tb.args_no_self }

/-! ## Environment lookups (env.rs, lines 215-345) -/

/-- `ApplyTypeLookup<'k>` (env.rs, lines 75-81). The binder list of the
looked-up declaration rides along (the source reads it from the
corresponding `*_kinds` map keyed by the id, which cannot fail). -/
inductive ApplyTypeLookup where
  | parameter (p : VariableKind × BoundVar)
  | adt (id : Ident) (kindBinders : List VariableKind)
  | fnDef (id : Ident) (kindBinders : List VariableKind)
  | closure (id : Ident) (kindBinders : List VariableKind)
  | opaqueTy (id : Ident) (kindBinders : List VariableKind)
deriving DecidableEq

/-- Embedding of `Env::lookup_apply_type` (env.rs, lines 285-299): the
parameter map is consulted first, then ADTs, fn-defs, closures and opaque
types, in that order. -/
def Env.lookup_apply_type (env : Env) (name : Ident) : LowerResult ApplyTypeLookup :=
  match findVal env.parameter_map name with
  | some p => .ok (.parameter p)
  | none =>
  match findVal env.adt_kinds name with
  | some k => .ok (.adt name k)
  | none =>
  match findVal env.fn_def_kinds name with
  | some k => .ok (.fnDef name k)
  | none =>
  match findVal env.closure_kinds name with
  | some k => .ok (.closure name k)
  | none =>
  match findVal env.opaque_ty_kinds name with
  | some k => .ok (.opaqueTy name k)
  | none => .error (.notStruct name)

/-- The `apply` closure of `Env::lookup_generic_arg` (env.rs, lines
221-236): a bare name naming a declaration with binders is an arity error,
otherwise it becomes an application with an empty substitution. -/
def applyEmptySubstitution (name : Ident) (k : List VariableKind) (type_name : TypeName) :
    LowerResult LGenericArg :=
  if k.length > 0 then
    .error (.incorrectNumberOfTypeParameters name k.length 0)
  else
    .ok (.ty (.apply type_name []))

/-- Embedding of `Env::lookup_generic_arg` (env.rs, lines 215-283). Note
that the `Opaque` arm (lines 260-267) builds an opaque alias with an empty
substitution without consulting the opaque type's binders. -/
def Env.lookup_generic_arg (env : Env) (name : Ident) : LowerResult LGenericArg :=
  match env.lookup_apply_type name with
  | .ok (.parameter (kind, b)) =>
    .ok (match kind with
      | .ty _ => .ty (.boundVar b)
      | .lifetime => .lifetime (.boundVar b)
      | .const => .const (.boundVar b))
  | .ok (.adt id k) => applyEmptySubstitution name k (.adt id)
  | .ok (.fnDef id k) => applyEmptySubstitution name k (.fnDef id)
  | .ok (.closure id k) => applyEmptySubstitution name k (.closure id)
  | .ok (.opaqueTy id _) => .ok (.ty (.alias (.opaqueRef id [])))
  | .error _ =>
    if env.foreign_ty_ids.contains name then
      .ok (.ty (.apply (.foreign name) []))
    else if (findVal env.trait_kinds name).isSome then
      .error (.notStruct name)
    else
      .error (.invalidParameterName name)

/-- Embedding of `Env::lookup_trait` (env.rs, lines 305-315), fused with
the subsequent `trait_kind` map read (the source returns the `TraitId` and
then indexes `trait_kinds`, which cannot fail for an id produced here; the
`k.sort != TypeSort::Trait` check of `TraitBound::lower` can likewise
never fire because `trait_kinds` only holds traits). -/
def Env.lookup_trait (env : Env) (name : Ident) :
    LowerResult (Ident × List VariableKind) :=
  if (findVal env.parameter_map name).isSome then .error (.notTrait name)
  else if (findVal env.adt_kinds name).isSome then .error (.notTrait name)
  else
    match findVal env.trait_kinds name with
    | some k => .ok (name, k)
    | none => .error (.invalidTraitName name)

/-- Embedding of `Env::lookup_associated_ty` (env.rs, lines 337-345),
returning the `addl_variable_kinds` of the `AssociatedTyLookup` (its id is
the `(trait, name)` key itself in this model). -/
def Env.lookup_associated_ty (env : Env) (trait_id : Ident) (ident : Ident) :
    LowerResult (List VariableKind) :=
  match findVal env.associated_ty_lookups (trait_id, ident) with
  | some lookup => .ok lookup
  | none => .error (.missingAssociatedType ident)

/-! ## The surface AST fragment (chalk_parse::ast)

Types, generic arguments, trait refs and projections are mutually
recursive. `TraitRef` stores its arguments with the self type first; the
grammar always supplies a type there, so the self argument is stored as a
type and the remaining arguments follow (`TraitRef::lower` splits the
argument vector the same way at lines 695-709). Variants of `Ty` not
reachable from the claims (`Dyn`, `ForAll`, tuples, scalars, references,
...) are omitted. -/

mutual

inductive ATy where
  | id (name : Ident)
  | apply (name : Ident) (args : List AGenericArg)
  | projection (proj : AProjectionTy)

inductive AProjectionTy where
  | mk (trait_ref : ATraitRef) (name : Ident) (args : List AGenericArg)

inductive ATraitRef where
  | mk (trait_name : Ident) (self_ty : ATy) (args_no_self : List AGenericArg)

inductive AGenericArg where
  | ty (t : ATy)
  | lifetime (l : ALifetime)
  | argId (name : Ident)
  | constArg (c : AConst)

inductive ALifetime where
  | id (name : Ident)

inductive AConst where
  | id (name : Ident)
  | value (v : Nat)

end

/-- The trait reference of a projection. -/
def AProjectionTy.trait_ref : AProjectionTy → ATraitRef
  | .mk tr _ _ => tr

/-- The associated type name of a projection. -/
def AProjectionTy.name : AProjectionTy → Ident
  | .mk _ n _ => n

/-- The argument list of a projection. -/
def AProjectionTy.args : AProjectionTy → List AGenericArg
  | .mk _ _ a => a

/-- Embedding of `Lifetime::lower` (lowering.rs, lines 1169-1187): look
the name up and insist on a lifetime parameter. -/
def lowerLifetime (env : Env) : ALifetime → LowerResult LLifetime
  | .id name =>
    match env.lookup_generic_arg name with
    | .error e => .error e
    | .ok (.lifetime l) => .ok l
    | .ok p => .error (.incorrectParameterKind name .lifetime (kindOfArg p))

/-- Embedding of `Const::lower` (lowering.rs, lines 1129-1153). -/
def lowerConst (env : Env) : AConst → LowerResult LConst
  | .id name =>
    match env.lookup_generic_arg name with
    | .error e => .error e
    | .ok (.const c) => .ok c
    | .ok p => .error (.incorrectParameterKind name .const (kindOfArg p))
  | .value v => .ok (.concrete v)

/-- The match in the `Ty::Apply` arm of `Ty::lower` (lowering.rs, lines
976-991): a bare parameter cannot be applied; otherwise the type name and
the declaration's binders are produced. -/
def applyTypeNameAndKind (name : Ident) : ApplyTypeLookup →
    LowerResult (TypeName × List VariableKind)
  | .parameter _ => .error (.cannotApplyTypeParameter name)
  | .adt id kb => .ok (.adt id, kb)
  | .fnDef id kb => .ok (.fnDef id, kb)
  | .closure id kb => .ok (.closure id, kb)
  | .opaqueTy id kb => .ok (.opaqueType id, kb)

/-- The kind-checking loop shared by `TraitBound::lower`, the `Ty::Apply`
arm, `ProjectionTy::lower` and `AliasEqBound::lower`: compare each
declared binder kind with the corresponding argument's kind, failing with
the given error on the first mismatch (the zip stops at the shorter
list). -/
def checkParameterKinds (mkErr : Kind → Kind → RustIrError) :
    List VariableKind → List LGenericArg → LowerResult Unit
  | [], _ => .ok ()
  | _, [] => .ok ()
  | b :: bs, p :: ps =>
    if kindOfVK b ≠ kindOfArg p then .error (mkErr (kindOfVK b) (kindOfArg p))
    else checkParameterKinds mkErr bs ps

mutual

/-- Embedding of `Ty::lower` (lowering.rs, lines 929-1127), restricted to
the `Id`, `Apply` and `Projection` arms. -/
def lowerTy (env : Env) : ATy → LowerResult LTy
  | .id name => do
    let parameter ← env.lookup_generic_arg name
    match parameter with
    | .ty t => pure t
    | p => throw (.incorrectParameterKind name .ty (kindOfArg p))
  | .apply name args => do
    let lk ← env.lookup_apply_type name
    let nk ← applyTypeNameAndKind name lk
    if nk.2.length ≠ args.length then
      throw (.incorrectNumberOfTypeParameters name nk.2.length args.length)
    let substitution ← lowerArgs env args
    match checkParameterKinds (fun e a => .incorrectParameterKind name e a)
        nk.2 substitution with
    | .error e => throw e
    | .ok _ => pure (LTy.apply nk.1 substitution)
  | .projection proj => do
    let p ← lowerProjectionTy env proj
    pure (LTy.alias (LAlias.projection p.associated_ty_id p.substitution))
termination_by t => sizeOf t

/-- Embedding of `GenericArg::lower` (lowering.rs, lines 1155-1167). -/
def lowerGenericArg (env : Env) : AGenericArg → LowerResult LGenericArg
  | .ty t => do pure (.ty (← lowerTy env t))
  | .lifetime l => do pure (.lifetime (← lowerLifetime env l))
  | .argId name => env.lookup_generic_arg name
  | .constArg c => do pure (.const (← lowerConst env c))
termination_by a => sizeOf a

/-- Lowering of an argument list (the `collect` of lowered arguments used
at every site): stops at the first error. -/
def lowerArgs (env : Env) : List AGenericArg → LowerResult (List LGenericArg)
  | [] => pure []
  | a :: rest => do
    let x ← lowerGenericArg env a
    let xs ← lowerArgs env rest
    pure (x :: xs)
termination_by l => sizeOf l

/-- Embedding of `TraitBound::lower` (lowering.rs, lines 711-752): resolve
the trait, lower the non-self arguments, check the count against the
trait's declared binders, then check each kind. -/
def lowerTraitBound (env : Env) (trait_name : Ident)
    (args_no_self : List AGenericArg) : LowerResult LTraitBound := do
  let tk ← env.lookup_trait trait_name
  let parameters ← lowerArgs env args_no_self
  if parameters.length ≠ tk.2.length then
    throw (.incorrectNumberOfTypeParameters trait_name tk.2.length parameters.length)
  match checkParameterKinds (fun e a => .incorrectTraitParameterKind trait_name e a)
      tk.2 parameters with
  | .error e => throw e
  | .ok _ => pure { trait_id := tk.1, args_no_self := parameters }
termination_by sizeOf args_no_self + 1

/-- Embedding of `TraitRef::lower` (lowering.rs, lines 695-709): lower the
bound without the self type, then the self type, then recombine with
`as_trait_ref`. -/
def lowerTraitRef (env : Env) : ATraitRef → LowerResult LTraitRef
  | .mk trait_name self_ty args_no_self => do
    let without_self ← lowerTraitBound env trait_name args_no_self
    let self_parameter ← lowerTy env self_ty
    pure (asTraitRef without_self self_parameter)
termination_by tr => sizeOf tr
decreasing_by
  all_goals simp_wf
  all_goals cases self_ty <;> simp_arith

/-- Embedding of `ProjectionTy::lower` (lowering.rs, lines 882-927): lower
the trait ref, look up the associated type, lower and check the
projection's own arguments, then extend them with the trait
substitution. -/
def lowerProjectionTy (env : Env) : AProjectionTy → LowerResult LProjectionTy
  | .mk trait_ref name args => do
    let tr ← lowerTraitRef env trait_ref
    let lookup ← env.lookup_associated_ty tr.trait_id name
    let args' ← lowerArgs env args
    if args'.length ≠ lookup.length then
      throw (.incorrectNumberOfAssociatedTypeParameters name lookup.length args'.length)
    match checkParameterKinds (fun e a => .incorrectAssociatedTypeParameterKind name e a)
        lookup args' with
    | .error e => throw e
    | .ok _ => pure { associated_ty_id := (tr.trait_id, name)
                      substitution := args' ++ tr.substitution }
termination_by p => sizeOf p

end

/-! ## Where clauses (lowering.rs, lines 418-482) -/

/-- Surface where clauses (`chalk_parse::ast::WhereClause`). -/
inductive AWhereClause where
  | implemented (trait_ref : ATraitRef)
  | projectionEq (projection : AProjectionTy) (ty : ATy)
  | lifetimeOutlives (a b : ALifetime)
  | typeOutlives (ty : ATy) (lifetime : ALifetime)

/-- Lowered where clauses (`chalk_ir::WhereClause`). -/
inductive LWhereClause where
  | implemented (trait_ref : LTraitRef)
  | aliasEq (al : LAlias) (ty : LTy)
  | lifetimeOutlives (a b : LLifetime)
  | typeOutlives (ty : LTy) (lifetime : LLifetime)

/-- Embedding of `WhereClause::lower` (lowering.rs, lines 431-468): a
projection equality lowers to the `AliasEq` clause followed by the
`Implemented` clause for its trait ref; every other form lowers to a
single clause. -/
def lowerWhereClause (env : Env) : AWhereClause → LowerResult (List LWhereClause)
  | .implemented trait_ref => do
    pure [LWhereClause.implemented (← lowerTraitRef env trait_ref)]
  | .projectionEq projection ty => do
    let p ← lowerProjectionTy env projection
    let t ← lowerTy env ty
    let tr ← lowerTraitRef env projection.trait_ref
    pure [LWhereClause.aliasEq (LAlias.projection p.associated_ty_id p.substitution) t,
          LWhereClause.implemented tr]
  | .lifetimeOutlives a b => do
    let la ← lowerLifetime env a
    let lb ← lowerLifetime env b
    pure [LWhereClause.lifetimeOutlives la lb]
  | .typeOutlives ty lifetime => do
    let t ← lowerTy env ty
    let l ← lowerLifetime env lifetime
    pure [LWhereClause.typeOutlives t l]

/-- Surface parameter declarations (`chalk_parse::ast::VariableKind`). -/
inductive AVariableKind where
  | ty (n : Ident)
  | integerTy (n : Ident)
  | floatTy (n : Ident)
  | lifetime (n : Ident)
  | const (n : Ident)

/-- A quantified where clause (`chalk_parse::ast::QuantifiedWhereClause`):
its own binder list plus the clause. -/
structure AQuantifiedWhereClause where
  variable_kinds : List AVariableKind
  where_clause : AWhereClause

/-- Embedding of `VariableKind::lower` (lowering.rs, lines 389-404):
produce the parameter kind and name (the const type is `u32`). -/
def lowerAVariableKind : AVariableKind → (VariableKind × Ident)
  | .ty n => (.ty .general, n)
  | .integerTy n => (.ty .integer, n)
  | .floatTy n => (.ty .float, n)
  | .lifetime n => (.lifetime, n)
  | .const n => (.const, n)

/-- Embedding of `QuantifiedWhereClause::lower` (lowering.rs, lines
470-482): lower under the clause's own binders, then distribute the
binders over the resulting clause list (`Binders::into_iter`). -/
def lowerQuantifiedWhereClause (env : Env) (qwc : AQuantifiedWhereClause) :
    LowerResult (List (Binders LWhereClause)) := do
  let binders ← env.in_binders (qwc.variable_kinds.map lowerAVariableKind)
    (fun env' => lowerWhereClause env' qwc.where_clause)
  pure (binders.value.map (fun wc => { binders := binders.binders, value := wc }))

/-- Embedding of `[QuantifiedWhereClause]::lower` (lowering.rs, lines
418-429): flat-map with the first error propagated. -/
def lowerWhereClauses (env : Env) (wcs : List AQuantifiedWhereClause) :
    LowerResult (List (Binders LWhereClause)) := do
  let lists ← wcs.mapM (lowerQuantifiedWhereClause env)
  pure lists.flatten

/-! ## Goals and custom clauses (lowering.rs, lines 484-551 and 1234-1272) -/

/-- Surface domain goals (`chalk_parse::ast::DomainGoal`), restricted to
the variants needed here: `Holds`, `Reveal` and `Compatible`. -/
inductive ADomainGoal where
  | holds (where_clause : AWhereClause)
  | reveal
  | compatible

/-- Surface leaf goals (`chalk_parse::ast::LeafGoal`). -/
inductive ALeafGoal where
  | domainGoal (goal : ADomainGoal)
  | unify (a b : AGenericArg)

/-- Surface goals (`chalk_parse::ast::Goal`), restricted to conjunction,
negation and leaves (the quantified and `Implies`/`Compatible` wrappers
are not needed by the claims). `And` carries the first conjunct plus the
rest, as in the source. -/
inductive AGoal where
  | leaf (goal : ALeafGoal)
  | and (g1 : AGoal) (g2s : List AGoal)
  | not (g : AGoal)

/-- Lowered domain goals (`chalk_ir::DomainGoal`): a held where clause,
`Reveal` or `Compatible`. -/
inductive LDomainGoal where
  | holds (wc : LWhereClause)
  | reveal
  | compatible

/-- Lowered goals (`chalk_ir::GoalData`), restricted to the shapes
produced here: `All`, `Not`, equality goals and domain-goal leaves. -/
inductive LGoal where
  | all (goals : List LGoal)
  | not (g : LGoal)
  | eqGoal (a b : LGenericArg)
  | domainGoal (dg : LDomainGoal)

/-- Embedding of `DomainGoal::lower` (lowering.rs, lines 484-533) for the
embedded variants; a `Holds` goal casts each lowered where clause into a
domain goal. -/
def lowerDomainGoal (env : Env) : ADomainGoal → LowerResult (List LDomainGoal)
  | .holds where_clause => do
    let wcs ← lowerWhereClause env where_clause
    pure (wcs.map LDomainGoal.holds)
  | .reveal => pure [LDomainGoal.reveal]
  | .compatible => pure [LDomainGoal.compatible]

/-- Embedding of `LeafGoal::lower` (lowering.rs, lines 535-551):
`Goal::all` over the lowered domain goals, or an equality goal. -/
def lowerLeafGoal (env : Env) : ALeafGoal → LowerResult LGoal
  | .domainGoal goal => do
    let dgs ← lowerDomainGoal env goal
    pure (LGoal.all (dgs.map LGoal.domainGoal))
  | .unify a b => do
    let a' ← lowerGenericArg env a
    let b' ← lowerGenericArg env b
    pure (LGoal.eqGoal a' b')

mutual

/-- Embedding of `Goal::lower` (lowering.rs, lines 1360-1399) for the
embedded variants: `And` becomes `All` over the first conjunct and the
rest, `Not` wraps, and leaves delegate to `LeafGoal::lower`. -/
def lowerGoal (env : Env) : AGoal → LowerResult LGoal
  | .leaf goal => lowerLeafGoal env goal
  | .and g1 g2s => do
    let l1 ← lowerGoal env g1
    let ls ← lowerGoalList env g2s
    pure (LGoal.all (l1 :: ls))
  | .not g => do
    pure (LGoal.not (← lowerGoal env g))
termination_by g => sizeOf g

/-- `Goals::from_fallible` over a goal list: stop at the first error. -/
def lowerGoalList (env : Env) : List AGoal → LowerResult (List LGoal)
  | [] => pure []
  | g :: gs => do
    let l ← lowerGoal env g
    let ls ← lowerGoalList env gs
    pure (l :: ls)
termination_by gs => sizeOf gs

end

/-- Clause priorities (`chalk_ir::ClausePriority`). -/
inductive ClausePriority where
  | high
  | low
deriving DecidableEq

/-- Region constraints (`chalk_ir::Constraints`); the custom-clause
lowering only ever produces the empty collection, so a placeholder element
type suffices. -/
inductive LConstraint where
  | mk

/-- `chalk_ir::ProgramClauseImplication`. -/
structure LProgramClauseImplication where
  consequence : LDomainGoal
  conditions : List LGoal
  constraints : List LConstraint
  priority : ClausePriority

/-- `chalk_ir::ProgramClause`: a quantified implication. -/
structure LProgramClause where
  implication : Binders LProgramClauseImplication

/-- A top-level custom `Clause` item (`chalk_parse::ast::Clause`): its
declared parameters (no synthetic parameter, per `lower_param_map!`), the
consequence and the conditions. -/
structure AClause where
  variable_kinds : List AVariableKind
  consequence : ADomainGoal
  conditions : List AGoal

/-- Embedding of `Clause::lower` (lowering.rs, lines 1234-1272): under the
clause's binders, the consequence lowers to one or more domain goals; the
conditions are each lowered and collected in reverse order (the source
maps and then reverses the iterator, which evaluates the lowering over the
reversed sequence); each consequence yields one implication with those
conditions, empty constraints and `High` priority, and the binders are
distributed over the implications. -/
def lowerClause (env : Env) (clause : AClause) : LowerResult (List LProgramClause) := do
  let implications ← env.in_binders (clause.variable_kinds.map lowerAVariableKind)
    (fun env' => do
      let consequences ← lowerDomainGoal env' clause.consequence
      let conditions ← lowerGoalList env' clause.conditions.reverse
      pure (consequences.map (fun consequence =>
        { consequence := consequence, conditions := conditions,
          constraints := ([] : List LConstraint), priority := ClausePriority.high })))
  pure (implications.value.map (fun implication =>
    { implication := { binders := implications.binders, value := implication } }))

/-! ## Trait declarations (env.rs, lines 115-129; lowering.rs, lines
1274-1313) -/

/-- A trait declaration (`chalk_parse::ast::TraitDefn`), restricted to the
fields the embedded fragment reads: name, declared parameters, where
clauses, associated-type declaration names, and the `auto` flag. -/
structure ATraitDefn where
  name : Ident
  variable_kinds : List AVariableKind
  where_clauses : List AQuantifiedWhereClause
  assoc_ty_defns : List Ident
  auto : Bool

/-- The atom for the synthetic `Self` parameter (`SELF = "Self"`). -/
def selfAtom : Ident := 0

/-- A small concrete environment for exercising the lowering functions:
trait 1 (no parameters), generic ADT 2 (one type parameter), generic
opaque type 3 (one type parameter). -/
def envC4 : Env :=
  { emptyEnv with trait_kinds := [(1, [])],
                  adt_kinds := [(2, [VariableKind.ty .general])],
                  opaque_ty_kinds := [(3, [VariableKind.ty .general])] }

/-- A concrete environment with trait 1, a plain struct 2 and an
associated type 4 of trait 1 with no additional parameters. -/
def envC6 : Env :=
  { emptyEnv with trait_kinds := [(1, [])], adt_kinds := [(2, [])],
                  associated_ty_lookups := [((1, 4), [])] }

/-- The where clause `2: 1<Item4 = 2>` — a projection equality relating
the associated type 4 of trait 1 on struct 2 to struct 2. -/
def wcC6 : AWhereClause :=
  .projectionEq (AProjectionTy.mk (ATraitRef.mk 1 (ATy.id 2) []) 4 []) (ATy.id 2)

/-- A concrete custom clause with no parameters, consequence `Reveal` and
two textual conditions: first `Reveal` as a leaf, then its negation. -/
def clauseC9 : AClause :=
  { variable_kinds := []
    consequence := .reveal
    conditions := [AGoal.leaf (.domainGoal .reveal),
                   AGoal.not (AGoal.leaf (.domainGoal .reveal))] }

/-- An auto trait (atom 7) declaring an associated type (atom 9). -/
def traitC10a : ATraitDefn :=
  { name := 7, variable_kinds := [], where_clauses := [], assoc_ty_defns := [9]
    auto := true }

/-- An auto trait (atom 7) with one declared type parameter (atom 8). -/
def traitC10b : ATraitDefn :=
  { name := 7, variable_kinds := [AVariableKind.ty 8], where_clauses := []
    assoc_ty_defns := [], auto := true }

/-- An auto trait (atom 7) with a where clause and no declared
parameters. -/
def traitC10c : ATraitDefn :=
  { name := 7, variable_kinds := []
    where_clauses := [{ variable_kinds := []
                        where_clause := AWhereClause.lifetimeOutlives (.id 1) (.id 1) }]
    assoc_ty_defns := [], auto := true }

/-- An auto trait (atom 7) whose two declared parameters share the same
name (atom 8). -/
def traitC10dup : ATraitDefn :=
  { name := 7, variable_kinds := [AVariableKind.ty 8, AVariableKind.ty 8]
    where_clauses := [], assoc_ty_defns := [], auto := true }

/-- `all_parameters` for a trait declaration (`lower_param_map!` with the
synthetic `Self`, lowering.rs, lines 287-342): `Self` first, then the
declared parameters. -/
def traitAllParameters (d : ATraitDefn) : List (VariableKind × Ident) :=
  (VariableKind.ty .general, selfAtom) :: d.variable_kinds.map lowerAVariableKind

/-- The per-trait-item check of `ProgramLowerer::gather_ids` (env.rs,
lines 117-120): an auto trait declaring associated types is rejected
before ids are assigned. -/
def gatherTraitDefnCheck (d : ATraitDefn) : LowerResult Unit :=
  if d.auto && !d.assoc_ty_defns.isEmpty then
    .error (.autoTraitAssociatedTypes d.name)
  else
    .ok ()

/-- `rust_ir::TraitDatumBound`: the lowered where clauses. -/
structure LTraitDatumBound where
  where_clauses : List (Binders LWhereClause)

/-- `rust_ir::TraitDatum`, restricted to the binders and the auto flag
(id, the remaining flags, associated type ids and the well-known tag are
not read by the claims). -/
structure LTraitDatum where
  binders : Binders LTraitDatumBound
  auto : Bool

/-- Embedding of `lower_trait` (lowering.rs, lines 1274-1313): under the
trait's binders (`Self` plus declared parameters), an auto trait with more
than the synthetic parameter or with any where clause is rejected; then
the where clauses are lowered. -/
def lower_trait (trait_defn : ATraitDefn) (env : Env) : LowerResult LTraitDatum := do
  let all_parameters := traitAllParameters trait_defn
  let all_parameters_len := all_parameters.length
  let binders ← env.in_binders all_parameters (fun env' => do
    if trait_defn.auto then do
      if all_parameters_len > 1 then
        throw (.autoTraitParameters trait_defn.name)
      if !trait_defn.where_clauses.isEmpty then
        throw (.autoTraitWhereClauses trait_defn.name)
    let wcs ← lowerWhereClauses env' trait_defn.where_clauses
    pure { where_clauses := wcs })
  pure { binders := binders, auto := trait_defn.auto }

end Chalk

namespace Chalk

/-! ## Association-list lemmas -/

theorem findVal_none_iff {K V : Type} [DecidableEq K] (m : List (K × V)) (k : K) :
    findVal m k = none ↔ k ∉ keysOf m := by
  induction m with
  | nil => simp [findVal, keysOf]
  | cons hd tl ih =>
    obtain ⟨k', v'⟩ := hd
    by_cases h : k = k' <;> simp [findVal, keysOf, h] at ih ⊢ <;> simp [ih]

theorem findVal_append {K V : Type} [DecidableEq K] (xs ys : List (K × V)) (k : K) :
    findVal (xs ++ ys) k =
      match findVal xs k with
      | some v => some v
      | none => findVal ys k := by
  induction xs with
  | nil => simp [findVal]
  | cons hd tl ih =>
    obtain ⟨k', v'⟩ := hd
    by_cases h : k = k' <;> simp [findVal, h, ih]

theorem findVal_map_snd {K V W : Type} [DecidableEq K] (m : List (K × V)) (f : V → W)
    (k : K) :
    findVal (m.map (fun kv => (kv.1, f kv.2))) k = (findVal m k).map f := by
  induction m with
  | nil => simp [findVal]
  | cons hd tl ih =>
    obtain ⟨k', v'⟩ := hd
    by_cases h : k = k' <;> simp [findVal, h, ih]

theorem findVal_insertMap {K V : Type} [DecidableEq K] (m : List (K × V)) (k key : K)
    (v : V) :
    findVal (insertMap m k v) key = if key = k then some v else findVal m key := by
  induction m with
  | nil => simp [insertMap, findVal]
  | cons hd tl ih =>
    obtain ⟨k', v'⟩ := hd
    by_cases h : k = k'
    · subst h
      by_cases h' : key = k <;> simp [insertMap, findVal, h']
    · by_cases h' : key = k'
      · have hne : ¬ (key = k) := fun e => h (e.symm.trans h')
        have hne2 : ¬ (k' = k) := fun e => h e.symm
        simp [insertMap, findVal, h, h', hne, hne2]
      · simp [insertMap, findVal, h, h', ih]

theorem length_insertMap {K V : Type} [DecidableEq K] (m : List (K × V)) (k : K) (v : V) :
    (insertMap m k v).length =
      match findVal m k with
      | some _ => m.length
      | none => m.length + 1 := by
  induction m with
  | nil => simp [insertMap, findVal]
  | cons hd tl ih =>
    obtain ⟨k', v'⟩ := hd
    by_cases h : k = k'
    · subst h
      simp [insertMap, findVal]
    · simp only [insertMap, if_neg h, List.length_cons, ih, findVal, if_neg h]
      cases hfv : findVal tl k <;> simp [hfv]

theorem length_insertMap_le {K V : Type} [DecidableEq K] (m : List (K × V)) (k : K)
    (v : V) :
    (insertMap m k v).length ≤ m.length + 1 := by
  rw [length_insertMap]
  rcases findVal m k with _ | w <;> simp

theorem collect_go_length_le {K V : Type} [DecidableEq K] (l : List (K × V))
    (m : List (K × V)) :
    (List.foldl (fun m kv => insertMap m kv.1 kv.2) m l).length ≤ m.length + l.length := by
  induction l generalizing m with
  | nil => simp
  | cons hd tl ih =>
    simp only [List.foldl_cons, List.length_cons]
    have h1 := ih (insertMap m hd.1 hd.2)
    have h2 := length_insertMap_le m hd.1 hd.2
    omega

theorem collect_go_length_eq_iff {K V : Type} [DecidableEq K] (l : List (K × V))
    (m : List (K × V)) :
    (List.foldl (fun m kv => insertMap m kv.1 kv.2) m l).length = m.length + l.length
      ↔ (keysOf l).Nodup ∧ ∀ k ∈ keysOf l, findVal m k = none := by
  induction l generalizing m with
  | nil => simp [keysOf]
  | cons hd tl ih =>
    obtain ⟨k, v⟩ := hd
    simp only [List.foldl_cons, List.length_cons]
    rcases hf : findVal m k with _ | w
    · have hlen : (insertMap m k v).length = m.length + 1 := by
        rw [length_insertMap, hf]
      have hstep : ∀ k', findVal (insertMap m k v) k' = none
          ↔ (¬ k' = k ∧ findVal m k' = none) := by
        intro k'
        rw [findVal_insertMap]
        by_cases hkk : k' = k <;> simp [hkk]
      have hiff := ih (insertMap m k v)
      rw [hlen] at hiff
      have harith : m.length + (tl.length + 1) = m.length + 1 + tl.length := by omega
      rw [harith, hiff]
      constructor
      · rintro ⟨hnd, hnone⟩
        have hknotin : k ∉ keysOf tl := fun hk => ((hstep k).mp (hnone k hk)).1 rfl
        refine ⟨?_, ?_⟩
        · simpa [keysOf] using And.intro hknotin hnd
        · intro k' hk'
          have hk'' : k' = k ∨ k' ∈ keysOf tl := by simpa [keysOf] using hk'
          rcases hk'' with rfl | hmem
          · exact hf
          · exact ((hstep k').mp (hnone k' hmem)).2
      · rintro ⟨hnd, hnone⟩
        have hnd' : k ∉ keysOf tl ∧ (keysOf tl).Nodup := by simpa [keysOf] using hnd
        refine ⟨hnd'.2, fun k' hk' => (hstep k').mpr ⟨fun hEq => hnd'.1 (hEq ▸ hk'), ?_⟩⟩
        exact hnone k' (by simp only [keysOf, List.map_cons, List.mem_cons]; exact Or.inr hk')
    · have hlen : (insertMap m k v).length = m.length := by rw [length_insertMap, hf]
      constructor
      · intro h
        exfalso
        have hle := collect_go_length_le tl (insertMap m k v)
        rw [hlen] at hle
        omega
      · rintro ⟨-, hnone⟩
        exfalso
        have := hnone k (by simp [keysOf])
        rw [hf] at this
        exact absurd this (by simp)

theorem findVal_collect_go {K V : Type} [DecidableEq K] (l : List (K × V))
    (m : List (K × V)) (key : K) :
    findVal (List.foldl (fun m kv => insertMap m kv.1 kv.2) m l) key =
      match findVal l.reverse key with
      | some v => some v
      | none => findVal m key := by
  induction l generalizing m with
  | nil => simp [findVal]
  | cons hd tl ih =>
    obtain ⟨k, v⟩ := hd
    simp only [List.foldl_cons, List.reverse_cons]
    rw [ih, findVal_append]
    rcases hf : findVal tl.reverse key with _ | w
    · rw [findVal_insertMap]
      by_cases hk : key = k <;> simp [findVal, hk]
    · simp

theorem findVal_reverse_nodup {K V : Type} [DecidableEq K] (l : List (K × V))
    (hnd : (keysOf l).Nodup) (key : K) :
    findVal l.reverse key = findVal l key := by
  induction l with
  | nil => rfl
  | cons hd tl ih =>
    obtain ⟨k, v⟩ := hd
    simp only [keysOf, List.map_cons, List.nodup_cons] at hnd
    simp only [List.reverse_cons]
    rw [findVal_append, ih hnd.2]
    by_cases hk : key = k
    · subst hk
      have hnone : findVal tl key = none := (findVal_none_iff tl key).mpr hnd.1
      simp [hnone, findVal]
    · rcases h : findVal tl key with _ | w <;> simp [findVal, hk, h]

theorem findVal_collectMap {K V : Type} [DecidableEq K] (l : List (K × V))
    (hnd : (keysOf l).Nodup) (key : K) :
    findVal (collectMap l) key = findVal l key := by
  rw [collectMap, findVal_collect_go, findVal_reverse_nodup l hnd]
  rcases h : findVal l key with _ | w <;> simp [findVal]

theorem newBinderEntries_length (s : Nat) (l : List (VariableKind × Ident)) :
    (newBinderEntries s l).length = l.length := by
  induction l generalizing s with
  | nil => rfl
  | cons hd tl ih =>
    obtain ⟨kind, name⟩ := hd
    simp [newBinderEntries, ih]

theorem keysOf_newBinderEntries (s : Nat) (l : List (VariableKind × Ident)) :
    keysOf (newBinderEntries s l) = l.map Prod.snd := by
  induction l generalizing s with
  | nil => rfl
  | cons hd tl ih =>
    obtain ⟨kind, name⟩ := hd
    show name :: keysOf (newBinderEntries (s + 1) tl) = name :: tl.map Prod.snd
    rw [ih (s + 1)]

theorem findVal_newBinderEntries (l : List (VariableKind × Ident)) (s j : Nat)
    (h : j < l.length) (hnd : (l.map Prod.snd).Nodup) :
    findVal (newBinderEntries s l) (l.get ⟨j, h⟩).2
      = some ((l.get ⟨j, h⟩).1, ⟨0, s + j⟩) := by
  induction l generalizing s j with
  | nil => exact absurd h (by simp)
  | cons hd tl ih =>
    obtain ⟨kind, name⟩ := hd
    simp only [List.map_cons, List.nodup_cons] at hnd
    cases j with
    | zero => simp [newBinderEntries, findVal]
    | succ j' =>
      have hj' : j' < tl.length := by simpa using h
      have hmem : (tl.get ⟨j', hj'⟩).2 ∈ tl.map Prod.snd :=
        List.mem_map.mpr ⟨tl.get ⟨j', hj'⟩, List.get_mem tl j' hj', rfl⟩
      have hne : ¬ ((tl.get ⟨j', hj'⟩).2 = name) := fun hEq => hnd.1 (hEq ▸ hmem)
      have harith : s + (j' + 1) = (s + 1) + j' := by omega
      simp only [newBinderEntries, List.get_cons_succ, findVal]
      rw [if_neg hne, ih (s + 1) j' hj' hnd.2, harith]

/-! ## Theorems for the SLG context claims -/

/-- Claim C1: for every environment and domain goal, `program_clauses`
returns exactly the environment's local clauses that pass the `could_match`
head-compatibility test (each converted into a program clause via
`into_program_clause`), followed by the globally registered program clauses
that pass `could_match`, in that order; membership in the result is
characterised exactly, so no clause passing the filter is omitted and each
returned clause comes from a clause that passed the test (for environment
clauses, the test is applied to the clause before conversion, as in the
source). -/
theorem claim1_program_clauses {E P G : Type}
    (could_match_env : E → G → Bool) (could_match : P → G → Bool)
    (into_program_clause : E → P) (self : SlgProgram P)
    (environment : SlgEnvironment E) (goal : G) :
    program_clauses could_match_env could_match into_program_clause self environment goal
      = ((environment.clauses.filter (fun c => could_match_env c goal)).map
           (fun c => into_program_clause c))
        ++ self.program_clauses.filter (fun c => could_match c goal)
    ∧ ∀ p : P,
        p ∈ program_clauses could_match_env could_match into_program_clause self
              environment goal
        ↔ ((∃ e, e ∈ environment.clauses ∧ could_match_env e goal = true
                  ∧ p = into_program_clause e)
           ∨ (p ∈ self.program_clauses ∧ could_match p goal = true)) := by
  constructor
  · rfl
  · intro p
    simp only [program_clauses, List.mem_append, List.mem_map, List.mem_filter]
    constructor
    · rintro (⟨e, ⟨he, hm⟩, rfl⟩ | ⟨hp, hm⟩)
      · exact Or.inl ⟨e, he, hm, rfl⟩
      · exact Or.inr ⟨hp, hm⟩
    · rintro (⟨e, he, hm, rfl⟩ | ⟨hp, hm⟩)
      · exact Or.inl ⟨e, ⟨he, hm⟩, rfl⟩
      · exact Or.inr ⟨hp, hm⟩

/-- Claim C2: `truncate_goal` and `truncate_answer` return `some` of the
truncated replacement exactly when the truncation pass reports overflow,
i.e. when the value's syntactic size exceeds `max_size`; otherwise they
return `none` and the truncation pass leaves the input value unaltered. -/
theorem claim2_truncate_goal_answer (max_size : Nat) (subgoal : TTree)
    (subst : List TTree) :
    (truncate_goal max_size subgoal = none ↔ subgoal.size ≤ max_size)
    ∧ (truncate_goal max_size subgoal = some (subgoal.cut max_size)
        ↔ max_size < subgoal.size)
    ∧ ((truncate TTree.size (fun g => g.cut max_size) max_size subgoal).value
        = if max_size < subgoal.size then subgoal.cut max_size else subgoal)
    ∧ (truncate_answer max_size subst = none ↔ substSize subst ≤ max_size)
    ∧ (truncate_answer max_size subst = some (subst.map (fun x => x.cut max_size))
        ↔ max_size < substSize subst)
    ∧ ((truncate substSize (fun s => s.map (fun x => x.cut max_size)) max_size subst).value
        = if max_size < substSize subst then subst.map (fun x => x.cut max_size)
          else subst) := by
  refine ⟨?_, ?_, ?_, ?_, ?_, ?_⟩ <;>
    · simp only [truncate_goal, truncate_answer, truncate, gt_iff_lt]
      by_cases h : max_size < TTree.size subgoal <;>
        by_cases h' : max_size < substSize subst <;>
          simp [h, h'] <;> omega

/-- Claim C8: `into_ex_clause` appends every subgoal emitted by unification
onto the ex-clause's literal sequence as a positive literal and appends
every emitted region constraint onto its constraint list, leaving the
previously accumulated literals and constraints in place as a prefix; it
never adds a negative literal. -/
theorem claim8_into_ex_clause {G C : Type} (r : SlgUnificationResult G C)
    (ex : ExClause G C) :
    (into_ex_clause r ex).subgoals = ex.subgoals ++ r.goals.map Literal.positive
    ∧ (into_ex_clause r ex).constraints = ex.constraints ++ r.constraints
    ∧ ∀ g : G, Literal.negative g ∈ (into_ex_clause r ex).subgoals
        ↔ Literal.negative g ∈ ex.subgoals := by
  refine ⟨rfl, rfl, fun g => ?_⟩
  simp [into_ex_clause]

/-- Claim C5: in the `opaque_reveal` program — `Ty` implements `Trait`, and
the opaque type `T` with bound `Clone` hides `Ty` — the query `T: Trait`
yields no solution under ordinary visibility, and a unique answer with the
empty substitution inside a `Reveal`-flagged context. Identifier atoms:
`Ty` = 0, `Trait` = 1, `Clone` = 2, `T` = 3. -/
theorem claim5_opaque_reveal :
    let p : RevealProgram :=
      { impls := [(0, 1)], opaqueTys := [(3, { bounds := [2], hiddenTy := 0 })] }
    solveImplements p false 3 1 = SolveResult.noSolution
    ∧ solveImplements p true 3 1 = SolveResult.uniqueEmptySubst := by
  constructor <;> rfl

/-! ## Theorems about `Env::introduce` and `Env::in_binders` -/

theorem keysOf_append {K V : Type} (xs ys : List (K × V)) :
    keysOf (xs ++ ys) = keysOf xs ++ keysOf ys := by
  simp [keysOf]

theorem keysOf_map_val {K V W : Type} (m : List (K × V)) (f : V → W) :
    keysOf (m.map fun kv => (kv.1, f kv.2)) = keysOf m := by
  simp [keysOf]

theorem collectMap_length_eq_iff {K V : Type} [DecidableEq K] (l : List (K × V)) :
    (collectMap l).length = l.length ↔ (keysOf l).Nodup := by
  have h := collect_go_length_eq_iff l []
  simpa [collectMap, findVal] using h

theorem keysOf_shifted (m : ParameterMap) :
    keysOf (m.map fun kv => (kv.1, (kv.2.1, shiftedIn kv.2.2))) = keysOf m := by
  simp [keysOf]

theorem findVal_shifted (m : ParameterMap) (k : Ident) :
    findVal (m.map fun kv => (kv.1, (kv.2.1, shiftedIn kv.2.2))) k
      = (findVal m k).map (fun v => (v.1, shiftedIn v.2)) := by
  have h := findVal_map_snd m (fun v => (v.1, shiftedIn v.2)) k
  simpa using h

/-- The combined entry list whose collection becomes the new parameter map
in `Env::introduce`. -/
theorem introduce_entries_eq (env : Env) (new : List (VariableKind × Ident)) :
    ∀ env', env.introduce new = .ok env' →
      env'.parameter_map
        = collectMap ((env.parameter_map.map fun kv => (kv.1, (kv.2.1, shiftedIn kv.2.2)))
            ++ newBinderEntries 0 new)
      ∧ env'.adt_kinds = env.adt_kinds ∧ env'.fn_def_kinds = env.fn_def_kinds
      ∧ env'.closure_kinds = env.closure_kinds ∧ env'.trait_kinds = env.trait_kinds
      ∧ env'.opaque_ty_kinds = env.opaque_ty_kinds
      ∧ env'.foreign_ty_ids = env.foreign_ty_ids
      ∧ env'.associated_ty_lookups = env.associated_ty_lookups
      ∧ env'.auto_traits = env.auto_traits := by
  intro env' hok
  rw [Env.introduce] at hok
  split at hok
  · exact absurd hok (by simp)
  · simp only [Except.ok.injEq] at hok
    subst hok
    exact ⟨rfl, rfl, rfl, rfl, rfl, rfl, rfl, rfl, rfl⟩

/-- The length guard in `Env::introduce` fires exactly on duplicate or
shadowed names. -/
theorem introduce_guard_iff (env : Env) (new : List (VariableKind × Ident))
    (hnd : (keysOf env.parameter_map).Nodup) :
    (collectMap ((env.parameter_map.map fun kv => (kv.1, (kv.2.1, shiftedIn kv.2.2)))
        ++ newBinderEntries 0 new)).length
      = env.parameter_map.length + new.length
    ↔ ((new.map Prod.snd).Nodup
        ∧ ∀ n ∈ new.map Prod.snd, n ∉ keysOf env.parameter_map) := by
  have hlen : ((env.parameter_map.map fun kv => (kv.1, (kv.2.1, shiftedIn kv.2.2)))
      ++ newBinderEntries 0 new).length = env.parameter_map.length + new.length := by
    simp [newBinderEntries_length]
  rw [← hlen, collectMap_length_eq_iff, keysOf_append, keysOf_shifted,
    keysOf_newBinderEntries, List.nodup_append]
  constructor
  · rintro ⟨-, hnd2, hdisj⟩
    exact ⟨hnd2, fun n hn hmem => hdisj hmem hn⟩
  · rintro ⟨hnd2, hdisj⟩
    exact ⟨hnd, hnd2, fun a ha hb => hdisj a hb ha⟩

/-- Claim C3: when `Env::introduce` (and hence `in_binders`) succeeds, the
newly introduced binders receive de Bruijn indices `0..n` at the innermost
depth (depth 0) in iteration order, and every pre-existing parameter's
bound variable is shifted one binder level outward; consequently, when the
introduced list is the concatenation of an inner parameter set and an
enclosing one — as for associated-type declarations and associated-type
values, which list their own parameters before the trait's or impl's
(lowering.rs, lines 117-118 and 160-161) — the inner set gets the lower
indices `0..` and the enclosing set continues at `inner.length..`. -/
theorem claim3_introduce_debruijn_order (env : Env)
    (new : List (VariableKind × Ident)) (env' : Env)
    (hnd : (keysOf env.parameter_map).Nodup)
    (hok : env.introduce new = .ok env') :
    (∀ j (h : j < new.length),
        findVal env'.parameter_map (new.get ⟨j, h⟩).2
          = some ((new.get ⟨j, h⟩).1, ⟨0, j⟩))
    ∧ (∀ k v, k ∉ new.map Prod.snd → findVal env.parameter_map k = some v →
        findVal env'.parameter_map k = some (v.1, shiftedIn v.2))
    ∧ (∀ inner outer (hsplit : new = inner ++ outer),
        (∀ j (h : j < inner.length),
            findVal env'.parameter_map (inner.get ⟨j, h⟩).2
              = some ((inner.get ⟨j, h⟩).1, ⟨0, j⟩))
        ∧ (∀ j (h : j < outer.length),
            findVal env'.parameter_map (outer.get ⟨j, h⟩).2
              = some ((outer.get ⟨j, h⟩).1, ⟨0, inner.length + j⟩))) := by
  have hmap := (introduce_entries_eq env new env' hok).1
  -- The guard did not fire, so the combined keys are distinct.
  have hguard : (collectMap ((env.parameter_map.map fun kv =>
      (kv.1, (kv.2.1, shiftedIn kv.2.2))) ++ newBinderEntries 0 new)).length
      = env.parameter_map.length + new.length := by
    rw [Env.introduce] at hok
    split at hok
    · exact absurd hok (by simp)
    · omega
  have hcond := (introduce_guard_iff env new hnd).mp hguard
  have hkeys : (keysOf ((env.parameter_map.map fun kv =>
      (kv.1, (kv.2.1, shiftedIn kv.2.2))) ++ newBinderEntries 0 new)).Nodup := by
    rw [keysOf_append, keysOf_shifted, keysOf_newBinderEntries, List.nodup_append]
    exact ⟨hnd, hcond.1, fun a ha hb => hcond.2 a hb ha⟩
  have hfind : ∀ key, findVal env'.parameter_map key
      = findVal ((env.parameter_map.map fun kv => (kv.1, (kv.2.1, shiftedIn kv.2.2)))
          ++ newBinderEntries 0 new) key := by
    intro key
    rw [hmap, findVal_collectMap _ hkeys]
  have hnew : ∀ j (h : j < new.length),
      findVal env'.parameter_map (new.get ⟨j, h⟩).2
        = some ((new.get ⟨j, h⟩).1, ⟨0, j⟩) := by
    intro j h
    rw [hfind, findVal_append]
    have hmemname : (new.get ⟨j, h⟩).2 ∈ new.map Prod.snd :=
      List.mem_map.mpr ⟨new.get ⟨j, h⟩, List.get_mem new j h, rfl⟩
    have hnotin : (new.get ⟨j, h⟩).2
        ∉ keysOf (env.parameter_map.map fun kv => (kv.1, (kv.2.1, shiftedIn kv.2.2))) := by
      rw [keysOf_shifted]
      exact hcond.2 _ hmemname
    have hnone := (findVal_none_iff _ _).mpr hnotin
    rw [hnone]
    have := findVal_newBinderEntries new 0 j h hcond.1
    simpa using this
  refine ⟨hnew, ?_, ?_⟩
  · intro k v hknot hfound
    rw [hfind, findVal_append]
    have : findVal (env.parameter_map.map fun kv => (kv.1, (kv.2.1, shiftedIn kv.2.2))) k
        = some (v.1, shiftedIn v.2) := by
      rw [findVal_shifted, hfound]
      rfl
    rw [this]
  · rintro inner outer rfl
    constructor
    · intro j h
      have hlt : j < (inner ++ outer).length := by
        rw [List.length_append]; omega
      have hget : (inner ++ outer).get ⟨j, hlt⟩ = inner.get ⟨j, h⟩ := by
        simp only [List.get_eq_getElem]
        exact List.getElem_append_left h
      have hj := hnew j hlt
      rw [hget] at hj
      exact hj
    · intro j h
      have hlt : inner.length + j < (inner ++ outer).length := by
        rw [List.length_append]; omega
      have hget : (inner ++ outer).get ⟨inner.length + j, hlt⟩ = outer.get ⟨j, h⟩ := by
        simp only [List.get_eq_getElem]
        rw [List.getElem_append_right (by omega : inner.length ≤ inner.length + j)]
        simp
      have hj := hnew (inner.length + j) hlt
      rw [hget] at hj
      exact hj

/-- Witness for C3: introducing two fresh type parameters (atoms 10, 11)
into the empty environment assigns them innermost indices 0 and 1. -/
theorem claim3_witness :
    (keysOf emptyEnv.parameter_map).Nodup
    ∧ emptyEnv.introduce introduceSample = .ok introducedEnvSample
    ∧ findVal introducedEnvSample.parameter_map 10
        = some (VariableKind.ty .general, ⟨0, 0⟩)
    ∧ findVal introducedEnvSample.parameter_map 11
        = some (VariableKind.ty .general, ⟨0, 1⟩) := by
  have hnd : (keysOf emptyEnv.parameter_map).Nodup := by
    simp [emptyEnv, keysOf]
  have hok : emptyEnv.introduce introduceSample = .ok introducedEnvSample := by rfl
  have h := claim3_introduce_debruijn_order emptyEnv introduceSample introducedEnvSample
    hnd hok
  exact ⟨hnd, hok, h.1 0 (by simp [introduceSample]), h.1 1 (by simp [introduceSample])⟩

/-- Claim C7: `Env::introduce` returns the hard error
`DuplicateOrShadowedParameters` if and only if some newly introduced name
duplicates another new name or shadows a name already in the parameter
map; it returns no other error; and on success it produces a new
environment that differs from the original only in its parameter map (the
original environment value is never modified — the model is pure, as the
source takes `&self` and builds a fresh map). -/
theorem claim7_introduce_error (env : Env) (new : List (VariableKind × Ident))
    (hnd : (keysOf env.parameter_map).Nodup) :
    (env.introduce new = .error .duplicateOrShadowedParameters
      ↔ (¬ (new.map Prod.snd).Nodup
          ∨ ∃ n ∈ new.map Prod.snd, n ∈ keysOf env.parameter_map))
    ∧ (∀ e, env.introduce new = .error e → e = .duplicateOrShadowedParameters)
    ∧ (∀ env', env.introduce new = .ok env' →
        env'.parameter_map
          = collectMap ((env.parameter_map.map fun kv => (kv.1, (kv.2.1, shiftedIn kv.2.2)))
              ++ newBinderEntries 0 new)
        ∧ env'.adt_kinds = env.adt_kinds ∧ env'.fn_def_kinds = env.fn_def_kinds
        ∧ env'.closure_kinds = env.closure_kinds ∧ env'.trait_kinds = env.trait_kinds
        ∧ env'.opaque_ty_kinds = env.opaque_ty_kinds
        ∧ env'.foreign_ty_ids = env.foreign_ty_ids
        ∧ env'.associated_ty_lookups = env.associated_ty_lookups
        ∧ env'.auto_traits = env.auto_traits) := by
  refine ⟨?_, ?_, introduce_entries_eq env new⟩
  · have hiff := introduce_guard_iff env new hnd
    rw [Env.introduce]
    split
    · rename_i hne
      refine iff_of_true rfl ?_
      have hnc : ¬ ((new.map Prod.snd).Nodup
          ∧ ∀ n ∈ new.map Prod.snd, n ∉ keysOf env.parameter_map) :=
        fun hc => hne (hiff.mpr hc)
      by_cases hdup : (new.map Prod.snd).Nodup
      · right
        have hnall : ¬ ∀ n ∈ new.map Prod.snd, n ∉ keysOf env.parameter_map :=
          fun h => hnc ⟨hdup, h⟩
        push_neg at hnall
        exact hnall
      · exact Or.inl hdup
    · rename_i heq
      refine iff_of_false (by simp) ?_
      push_neg at heq
      have hcond := hiff.mp heq
      rintro (hdup | ⟨n, hn, hmem⟩)
      · exact hdup hcond.1
      · exact hcond.2 n hn hmem
  · intro e he
    rw [Env.introduce] at he
    split at he
    · simpa using he.symm
    · exact absurd he (by simp)

/-- Witness for C7: introducing two parameters with the same name (atom 5)
into the empty environment is rejected with
`DuplicateOrShadowedParameters`. -/
theorem claim7_witness :
    (keysOf emptyEnv.parameter_map).Nodup
    ∧ emptyEnv.introduce [(VariableKind.ty .general, 5), (VariableKind.ty .general, 5)]
        = .error .duplicateOrShadowedParameters := by
  have hnd : (keysOf emptyEnv.parameter_map).Nodup := by simp [emptyEnv, keysOf]
  refine ⟨hnd, ?_⟩
  exact (claim7_introduce_error emptyEnv
      [(VariableKind.ty .general, 5), (VariableKind.ty .general, 5)] hnd).1.mpr
    (Or.inl (by simp))

/-! ## Reduction and inversion lemmas for `Except` -/

@[simp] theorem ok_bind {ε α β : Type} (a : α) (f : α → Except ε β) :
    (Except.ok a : Except ε α) >>= f = f a := rfl

@[simp] theorem error_bind {ε α β : Type} (e : ε) (f : α → Except ε β) :
    (Except.error e : Except ε α) >>= f = .error e := rfl

@[simp] theorem pure_eq_ok {ε α : Type} (a : α) :
    (pure a : Except ε α) = .ok a := rfl

@[simp] theorem throw_eq_error {ε α : Type} (e : ε) :
    (throw e : Except ε α) = .error e := rfl

theorem except_bind_ok {ε α β : Type} (e : Except ε α) (f : α → Except ε β) (b : β) :
    (e >>= f) = .ok b ↔ ∃ a, e = .ok a ∧ f a = .ok b := by
  cases e <;> simp

/-! ## Kind- and arity-check lemmas (claim C4) -/

theorem checkParameterKinds_ok (mkErr : Kind → Kind → RustIrError) :
    ∀ (bs : List VariableKind) (ps : List LGenericArg),
      checkParameterKinds mkErr bs ps = .ok () → bs.length = ps.length →
      List.Forall₂ (fun b p => kindOfVK b = kindOfArg p) bs ps := by
  intro bs
  induction bs with
  | nil =>
    intro ps h hlen
    cases ps with
    | nil => exact .nil
    | cons p ps => simp at hlen
  | cons b bs ih =>
    intro ps h hlen
    cases ps with
    | nil => simp at hlen
    | cons p ps =>
      simp only [checkParameterKinds] at h
      split at h
      · simp at h
      · rename_i hk
        exact .cons (not_not.mp hk) (ih ps h (by simpa using hlen))

theorem lowerArgs_length (env : Env) :
    ∀ (args : List AGenericArg) (s : List LGenericArg),
      lowerArgs env args = .ok s → s.length = args.length := by
  intro args
  induction args with
  | nil =>
    intro s h
    simp only [lowerArgs, pure_eq_ok, Except.ok.injEq] at h
    subst h; rfl
  | cons a rest ih =>
    intro s h
    simp only [lowerArgs] at h
    rcases (except_bind_ok _ _ _).mp h with ⟨x, hx, h⟩
    rcases (except_bind_ok _ _ _).mp h with ⟨xs, hxs, h⟩
    simp only [pure_eq_ok, Except.ok.injEq] at h
    subst h
    simpa using ih xs hxs

theorem lowerTraitBound_ok_inv (env : Env) (tn : Ident) (args : List AGenericArg)
    (tb : LTraitBound) (h : lowerTraitBound env tn args = .ok tb) :
    ∃ kb, env.lookup_trait tn = .ok (tb.trait_id, kb)
      ∧ lowerArgs env args = .ok tb.args_no_self
      ∧ tb.args_no_self.length = kb.length
      ∧ List.Forall₂ (fun b p => kindOfVK b = kindOfArg p) kb tb.args_no_self := by
  simp only [lowerTraitBound] at h
  rcases (except_bind_ok _ _ _).mp h with ⟨tk, htk, h⟩
  obtain ⟨tid, kb⟩ := tk
  rcases (except_bind_ok _ _ _).mp h with ⟨params, hargs, h⟩
  split at h
  · simp at h
  · rename_i hlen
    simp only [pure_eq_ok, ok_bind] at h
    split at h
    · simp at h
    · rename_i u hchk
      simp only [pure_eq_ok, Except.ok.injEq] at h
      subst h
      have hlen' : params.length = kb.length := by
        by_contra hc
        exact hlen hc
      exact ⟨kb, htk, hargs, hlen',
        checkParameterKinds_ok _ kb params hchk hlen'.symm⟩

theorem lowerTy_apply_ok_inv (env : Env) (name : Ident) (args : List AGenericArg)
    (t : LTy) (h : lowerTy env (.apply name args) = .ok t) :
    ∃ lk nk s, env.lookup_apply_type name = .ok lk
      ∧ applyTypeNameAndKind name lk = .ok nk
      ∧ lowerArgs env args = .ok s
      ∧ t = LTy.apply nk.1 s
      ∧ s.length = nk.2.length
      ∧ List.Forall₂ (fun b p => kindOfVK b = kindOfArg p) nk.2 s := by
  simp only [lowerTy] at h
  rcases (except_bind_ok _ _ _).mp h with ⟨lk, hlk, h⟩
  rcases (except_bind_ok _ _ _).mp h with ⟨nk, hnk, h⟩
  split at h
  · simp at h
  · rename_i hlen
    simp only [pure_eq_ok, ok_bind] at h
    rcases (except_bind_ok _ _ _).mp h with ⟨s, hs, h⟩
    split at h
    · simp at h
    · rename_i u hchk
      simp only [pure_eq_ok, Except.ok.injEq] at h
      subst h
      have hlens : s.length = args.length := lowerArgs_length env args s hs
      have hlen' : s.length = nk.2.length := by omega
      exact ⟨lk, nk, s, hlk, hnk, hs, rfl, hlen',
        checkParameterKinds_ok _ nk.2 s hchk hlen'.symm⟩

theorem lowerProjectionTy_ok_inv (env : Env) (proj : AProjectionTy)
    (p : LProjectionTy) (h : lowerProjectionTy env proj = .ok p) :
    ∃ tr addl args0,
      lowerTraitRef env proj.trait_ref = .ok tr
      ∧ env.lookup_associated_ty tr.trait_id proj.name = .ok addl
      ∧ lowerArgs env proj.args = .ok args0
      ∧ p.associated_ty_id = (tr.trait_id, proj.name)
      ∧ p.substitution = args0 ++ tr.substitution
      ∧ args0.length = addl.length
      ∧ List.Forall₂ (fun b q => kindOfVK b = kindOfArg q) addl args0 := by
  obtain ⟨trait_ref, name, args⟩ := proj
  simp only [lowerProjectionTy] at h
  rcases (except_bind_ok _ _ _).mp h with ⟨tr, htr, h⟩
  rcases (except_bind_ok _ _ _).mp h with ⟨addl, haddl, h⟩
  rcases (except_bind_ok _ _ _).mp h with ⟨args0, hargs, h⟩
  split at h
  · simp at h
  · rename_i hlen
    simp only [pure_eq_ok, ok_bind] at h
    split at h
    · simp at h
    · rename_i u hchk
      simp only [pure_eq_ok, Except.ok.injEq] at h
      subst h
      have hlen' : args0.length = addl.length := by
        by_contra hc
        exact hlen hc
      exact ⟨tr, addl, args0, htr, haddl, hargs, rfl, rfl, hlen',
        checkParameterKinds_ok _ addl args0 hchk hlen'.symm⟩

/-- Claim C4, amended: at the substitution construction sites of the
lowering pass, the produced substitution matches the declared binders in
length and in each slot's kind, mismatches being rejected with a lowering
error — for trait bounds, applied types, projections, and bare-name
references to ADT, fn-def and closure declarations. The exception forced
by the counterexample: a bare-name reference to an opaque type is lowered
to an opaque alias with an empty substitution without any arity check,
even when the opaque type declares parameters (env.rs, lines 260-267). -/
theorem claim4_substitution_invariant :
    (∀ (env : Env) (tn : Ident) (args : List AGenericArg) (tb : LTraitBound),
       lowerTraitBound env tn args = .ok tb →
       ∃ kb, env.lookup_trait tn = .ok (tb.trait_id, kb)
         ∧ tb.args_no_self.length = kb.length
         ∧ List.Forall₂ (fun b p => kindOfVK b = kindOfArg p) kb tb.args_no_self)
    ∧ (∀ (env : Env) (name : Ident) (args : List AGenericArg) (t : LTy),
       lowerTy env (.apply name args) = .ok t →
       ∃ nk s, (∃ lk, env.lookup_apply_type name = .ok lk
           ∧ applyTypeNameAndKind name lk = .ok nk)
         ∧ t = LTy.apply nk.1 s
         ∧ s.length = nk.2.length
         ∧ List.Forall₂ (fun b p => kindOfVK b = kindOfArg p) nk.2 s)
    ∧ (∀ (env : Env) (proj : AProjectionTy) (p : LProjectionTy),
       lowerProjectionTy env proj = .ok p →
       ∃ tr addl args0,
         lowerTraitRef env proj.trait_ref = .ok tr
         ∧ env.lookup_associated_ty tr.trait_id proj.name = .ok addl
         ∧ p.substitution = args0 ++ tr.substitution
         ∧ args0.length = addl.length
         ∧ List.Forall₂ (fun b q => kindOfVK b = kindOfArg q) addl args0)
    ∧ (∀ (env : Env) (name : Ident) (kb : List VariableKind),
       findVal env.parameter_map name = none →
       findVal env.adt_kinds name = some kb →
       (kb ≠ [] → env.lookup_generic_arg name
          = .error (.incorrectNumberOfTypeParameters name kb.length 0))
       ∧ (kb = [] → env.lookup_generic_arg name = .ok (.ty (.apply (.adt name) []))))
    ∧ (∀ (env : Env) (name : Ident) (kb : List VariableKind),
       findVal env.parameter_map name = none →
       findVal env.adt_kinds name = none →
       findVal env.fn_def_kinds name = some kb →
       (kb ≠ [] → env.lookup_generic_arg name
          = .error (.incorrectNumberOfTypeParameters name kb.length 0))
       ∧ (kb = [] → env.lookup_generic_arg name = .ok (.ty (.apply (.fnDef name) []))))
    ∧ (∀ (env : Env) (name : Ident) (kb : List VariableKind),
       findVal env.parameter_map name = none →
       findVal env.adt_kinds name = none →
       findVal env.fn_def_kinds name = none →
       findVal env.closure_kinds name = some kb →
       (kb ≠ [] → env.lookup_generic_arg name
          = .error (.incorrectNumberOfTypeParameters name kb.length 0))
       ∧ (kb = [] → env.lookup_generic_arg name = .ok (.ty (.apply (.closure name) []))))
    ∧ (∀ (env : Env) (name : Ident) (kb : List VariableKind),
       findVal env.parameter_map name = none →
       findVal env.adt_kinds name = none →
       findVal env.fn_def_kinds name = none →
       findVal env.closure_kinds name = none →
       findVal env.opaque_ty_kinds name = some kb →
       env.lookup_generic_arg name = .ok (.ty (.alias (.opaqueRef name [])))) := by
  refine ⟨?_, ?_, ?_, ?_, ?_, ?_, ?_⟩
  · intro env tn args tb h
    obtain ⟨kb, htk, _, hlen, hkinds⟩ := lowerTraitBound_ok_inv env tn args tb h
    exact ⟨kb, htk, hlen, hkinds⟩
  · intro env name args t h
    obtain ⟨lk, nk, s, hlk, hnk, _, ht, hlen, hkinds⟩ :=
      lowerTy_apply_ok_inv env name args t h
    exact ⟨nk, s, ⟨lk, hlk, hnk⟩, ht, hlen, hkinds⟩
  · intro env proj p h
    obtain ⟨tr, addl, args0, htr, haddl, _, _, hsub, hlen, hkinds⟩ :=
      lowerProjectionTy_ok_inv env proj p h
    exact ⟨tr, addl, args0, htr, haddl, hsub, hlen, hkinds⟩
  · intro env name kb hpm hadt
    constructor
    · intro hne
      have hlen : kb.length > 0 := by cases kb <;> simp_all
      simp [Env.lookup_generic_arg, Env.lookup_apply_type, hpm, hadt,
        applyEmptySubstitution, hlen]
    · rintro rfl
      simp [Env.lookup_generic_arg, Env.lookup_apply_type, hpm, hadt,
        applyEmptySubstitution]
  · intro env name kb hpm hadt hfn
    constructor
    · intro hne
      have hlen : kb.length > 0 := by cases kb <;> simp_all
      simp [Env.lookup_generic_arg, Env.lookup_apply_type, hpm, hadt, hfn,
        applyEmptySubstitution, hlen]
    · rintro rfl
      simp [Env.lookup_generic_arg, Env.lookup_apply_type, hpm, hadt, hfn,
        applyEmptySubstitution]
  · intro env name kb hpm hadt hfn hcl
    constructor
    · intro hne
      have hlen : kb.length > 0 := by cases kb <;> simp_all
      simp [Env.lookup_generic_arg, Env.lookup_apply_type, hpm, hadt, hfn, hcl,
        applyEmptySubstitution, hlen]
    · rintro rfl
      simp [Env.lookup_generic_arg, Env.lookup_apply_type, hpm, hadt, hfn, hcl,
        applyEmptySubstitution]
  · intro env name kb hpm hadt hfn hcl hop
    simp [Env.lookup_generic_arg, Env.lookup_apply_type, hpm, hadt, hfn, hcl, hop]

/-- Counterexample for C4 as stated: in an environment declaring a generic
opaque type (atom 3, one type parameter), the bare-name reference to it is
not rejected — `lookup_generic_arg` produces an opaque alias whose
substitution is empty while the declaration has one binder. -/
theorem claim4_counterexample :
    Env.lookup_generic_arg
        { emptyEnv with opaque_ty_kinds := [(3, [VariableKind.ty .general])] } 3
      = .ok (.ty (.alias (.opaqueRef 3 [])))
    ∧ findVal ({ emptyEnv with
          opaque_ty_kinds := [(3, [VariableKind.ty .general])] } : Env).opaque_ty_kinds 3
        = some [VariableKind.ty .general]
    ∧ ([] : List LGenericArg).length ≠ [VariableKind.ty .general].length := by
  refine ⟨rfl, rfl, by decide⟩

/-- Witness for the amended C4, at concrete inputs: a trait bound with the
right number of arguments succeeds with matching kinds; a bare-name
reference to a generic ADT (atom 2) is rejected with the arity error; a
bare-name reference to a generic opaque type (atom 3) silently gets the
empty substitution. -/
theorem claim4_witness :
    (lowerTraitBound envC4 1 [] = .ok { trait_id := 1, args_no_self := [] })
    ∧ (∃ kb, Env.lookup_trait envC4 1
          = .ok (({ trait_id := 1, args_no_self := [] } : LTraitBound).trait_id, kb)
        ∧ ({ trait_id := 1, args_no_self := [] } : LTraitBound).args_no_self.length
            = kb.length
        ∧ List.Forall₂ (fun b p => kindOfVK b = kindOfArg p) kb
            ({ trait_id := 1, args_no_self := [] } : LTraitBound).args_no_self)
    ∧ (Env.lookup_generic_arg envC4 2
        = .error (.incorrectNumberOfTypeParameters 2 1 0))
    ∧ (Env.lookup_generic_arg envC4 3 = .ok (.ty (.alias (.opaqueRef 3 [])))) := by
  have htb : lowerTraitBound envC4 1 [] = .ok { trait_id := 1, args_no_self := [] } := by
    simp [lowerTraitBound, Env.lookup_trait, lowerArgs, checkParameterKinds,
      findVal, envC4, emptyEnv]
  refine ⟨htb, claim4_substitution_invariant.1 envC4 1 [] _ htb, ?_, ?_⟩
  · exact (claim4_substitution_invariant.2.2.2.1 envC4 2 [VariableKind.ty .general]
      rfl rfl).1 (by simp)
  · exact claim4_substitution_invariant.2.2.2.2.2.2 envC4 3 [VariableKind.ty .general]
      rfl rfl rfl rfl rfl

/-- Claim C6: lowering a projection-equality where clause produces exactly
two IR where clauses, in order the alias-equality clause and the
implementation-holds clause for the projection's trait ref; every other
where-clause form lowers to exactly one IR clause. -/
theorem claim6_where_clause_lowering (env : Env) (wc : AWhereClause)
    (res : List LWhereClause) (h : lowerWhereClause env wc = .ok res) :
    (match wc with
     | .projectionEq projection ty => ∃ p t tr,
         lowerProjectionTy env projection = .ok p
         ∧ lowerTy env ty = .ok t
         ∧ lowerTraitRef env projection.trait_ref = .ok tr
         ∧ res = [LWhereClause.aliasEq
                    (LAlias.projection p.associated_ty_id p.substitution) t,
                  LWhereClause.implemented tr]
     | .implemented trait_ref => ∃ tr, lowerTraitRef env trait_ref = .ok tr
         ∧ res = [LWhereClause.implemented tr]
     | .lifetimeOutlives a b => ∃ la lb, lowerLifetime env a = .ok la
         ∧ lowerLifetime env b = .ok lb
         ∧ res = [LWhereClause.lifetimeOutlives la lb]
     | .typeOutlives ty lifetime => ∃ t l, lowerTy env ty = .ok t
         ∧ lowerLifetime env lifetime = .ok l
         ∧ res = [LWhereClause.typeOutlives t l]) := by
  cases wc with
  | implemented trait_ref =>
    simp only [lowerWhereClause] at h
    rcases (except_bind_ok _ _ _).mp h with ⟨tr, htr, h⟩
    simp only [pure_eq_ok, Except.ok.injEq] at h
    exact ⟨tr, htr, h.symm⟩
  | projectionEq projection ty =>
    simp only [lowerWhereClause] at h
    rcases (except_bind_ok _ _ _).mp h with ⟨p, hp, h⟩
    rcases (except_bind_ok _ _ _).mp h with ⟨t, ht, h⟩
    rcases (except_bind_ok _ _ _).mp h with ⟨tr, htr, h⟩
    simp only [pure_eq_ok, Except.ok.injEq] at h
    exact ⟨p, t, tr, hp, ht, htr, h.symm⟩
  | lifetimeOutlives a b =>
    simp only [lowerWhereClause] at h
    rcases (except_bind_ok _ _ _).mp h with ⟨la, hla, h⟩
    rcases (except_bind_ok _ _ _).mp h with ⟨lb, hlb, h⟩
    simp only [pure_eq_ok, Except.ok.injEq] at h
    exact ⟨la, lb, hla, hlb, h.symm⟩
  | typeOutlives ty lifetime =>
    simp only [lowerWhereClause] at h
    rcases (except_bind_ok _ _ _).mp h with ⟨t, ht, h⟩
    rcases (except_bind_ok _ _ _).mp h with ⟨l, hl, h⟩
    simp only [pure_eq_ok, Except.ok.injEq] at h
    exact ⟨t, l, ht, hl, h.symm⟩

/-- Witness for C6: the projection equality `wcC6` lowers to exactly the
alias-equality clause followed by the implementation-holds clause. -/
theorem claim6_witness :
    lowerWhereClause envC6 wcC6
      = .ok [LWhereClause.aliasEq
               (LAlias.projection (1, 4) [LGenericArg.ty (LTy.apply (.adt 2) [])])
               (LTy.apply (.adt 2) []),
             LWhereClause.implemented
               { trait_id := 1,
                 substitution := [LGenericArg.ty (LTy.apply (.adt 2) [])] }]
    ∧ ∃ p t tr,
        lowerProjectionTy envC6 (AProjectionTy.mk (ATraitRef.mk 1 (ATy.id 2) []) 4 [])
          = .ok p
        ∧ lowerTy envC6 (ATy.id 2) = .ok t
        ∧ lowerTraitRef envC6
            (AProjectionTy.mk (ATraitRef.mk 1 (ATy.id 2) []) 4 []).trait_ref = .ok tr
        ∧ [LWhereClause.aliasEq
             (LAlias.projection (1, 4) [LGenericArg.ty (LTy.apply (.adt 2) [])])
             (LTy.apply (.adt 2) []),
           LWhereClause.implemented
             { trait_id := 1,
               substitution := [LGenericArg.ty (LTy.apply (.adt 2) [])] }]
          = [LWhereClause.aliasEq
               (LAlias.projection p.associated_ty_id p.substitution) t,
             LWhereClause.implemented tr] := by
  have h : lowerWhereClause envC6 wcC6
      = .ok [LWhereClause.aliasEq
               (LAlias.projection (1, 4) [LGenericArg.ty (LTy.apply (.adt 2) [])])
               (LTy.apply (.adt 2) []),
             LWhereClause.implemented
               { trait_id := 1,
                 substitution := [LGenericArg.ty (LTy.apply (.adt 2) [])] }] := by
    simp [lowerWhereClause, wcC6, lowerProjectionTy, lowerTraitRef, lowerTraitBound,
      lowerArgs, lowerTy, Env.lookup_trait, Env.lookup_associated_ty,
      Env.lookup_generic_arg, Env.lookup_apply_type, applyEmptySubstitution,
      checkParameterKinds, asTraitRef, findVal, envC6, emptyEnv,
      AProjectionTy.trait_ref]
  exact ⟨h, claim6_where_clause_lowering envC6 wcC6 _ h⟩

/-! ## Goal-list lemmas and the custom-clause claim (C9) -/

theorem lowerGoalList_nil (env : Env) : lowerGoalList env [] = .ok [] := by
  simp [lowerGoalList]

theorem lowerGoalList_cons_ok (env : Env) (g : AGoal) (gs : List AGoal)
    (l : List LGoal) :
    lowerGoalList env (g :: gs) = .ok l
      ↔ ∃ x xs, lowerGoal env g = .ok x ∧ lowerGoalList env gs = .ok xs
          ∧ l = x :: xs := by
  simp only [lowerGoalList]
  constructor
  · intro h
    rcases (except_bind_ok _ _ _).mp h with ⟨x, hx, h⟩
    rcases (except_bind_ok _ _ _).mp h with ⟨xs, hxs, h⟩
    simp only [pure_eq_ok, Except.ok.injEq] at h
    exact ⟨x, xs, hx, hxs, h.symm⟩
  · rintro ⟨x, xs, hx, hxs, rfl⟩
    simp [hx, hxs]

theorem lowerGoalList_append (env : Env) :
    ∀ (xs ys : List AGoal) (l : List LGoal),
      lowerGoalList env (xs ++ ys) = .ok l
        ↔ ∃ lx ly, lowerGoalList env xs = .ok lx ∧ lowerGoalList env ys = .ok ly
            ∧ l = lx ++ ly := by
  intro xs
  induction xs with
  | nil =>
    intro ys l
    simp only [List.nil_append]
    constructor
    · intro h
      exact ⟨[], l, lowerGoalList_nil env, h, rfl⟩
    · rintro ⟨lx, ly, hlx, hly, rfl⟩
      have : lx = [] := by
        have := lowerGoalList_nil env
        rw [this] at hlx
        simpa using hlx.symm
      subst this
      simpa using hly
  | cons g gs ih =>
    intro ys l
    rw [List.cons_append, lowerGoalList_cons_ok]
    constructor
    · rintro ⟨x, xs, hx, hxs, rfl⟩
      rcases (ih ys xs).mp hxs with ⟨lx, ly, hlx, hly, rfl⟩
      exact ⟨x :: lx, ly,
        (lowerGoalList_cons_ok env g gs (x :: lx)).mpr ⟨x, lx, hx, hlx, rfl⟩,
        hly, rfl⟩
    · rintro ⟨lx, ly, hlx, hly, rfl⟩
      rcases (lowerGoalList_cons_ok env g gs lx).mp hlx with ⟨x, xs, hx, hxs, rfl⟩
      exact ⟨x, xs ++ ly, hx, (ih ys (xs ++ ly)).mpr ⟨xs, ly, hxs, hly, rfl⟩, by simp⟩

theorem lowerGoalList_reverse (env : Env) :
    ∀ (gs : List AGoal) (l : List LGoal),
      lowerGoalList env gs.reverse = .ok l →
      ∃ l0, lowerGoalList env gs = .ok l0 ∧ l = l0.reverse := by
  intro gs
  induction gs with
  | nil =>
    intro l h
    refine ⟨[], lowerGoalList_nil env, ?_⟩
    have := lowerGoalList_nil env
    simp only [List.reverse_nil] at h
    rw [this] at h
    simpa using h.symm
  | cons g gs ih =>
    intro l h
    rw [List.reverse_cons] at h
    rcases (lowerGoalList_append env _ _ _).mp h with ⟨lx, ly, hlx, hly, rfl⟩
    rcases ih lx hlx with ⟨l0, hl0, rfl⟩
    rcases (lowerGoalList_cons_ok env g [] ly).mp hly with ⟨x, xs, hx, hxs, rfl⟩
    have hxs' : xs = [] := by
      have := lowerGoalList_nil env
      rw [this] at hxs
      simpa using hxs.symm
    subst hxs'
    exact ⟨x :: l0,
      (lowerGoalList_cons_ok env g gs (x :: l0)).mpr ⟨x, l0, hx, hl0, rfl⟩,
      by simp⟩

/-- Claim C9: when a top-level custom `Clause` item lowers successfully,
every produced program-clause implication carries the clause's binder
kinds, priority `High`, an empty constraint set, and conditions equal to
the reverse of the individually lowered textual conditions. -/
theorem claim9_custom_clause (env : Env) (clause : AClause)
    (clauses : List LProgramClause) (h : lowerClause env clause = .ok clauses) :
    ∃ env' conds,
      env.introduce (clause.variable_kinds.map lowerAVariableKind) = .ok env'
      ∧ lowerGoalList env' clause.conditions = .ok conds
      ∧ ∀ pc ∈ clauses,
          pc.implication.binders
            = (clause.variable_kinds.map lowerAVariableKind).map Prod.fst
          ∧ pc.implication.value.conditions = conds.reverse
          ∧ pc.implication.value.constraints = []
          ∧ pc.implication.value.priority = .high := by
  simp only [lowerClause, Env.in_binders] at h
  rcases (except_bind_ok _ _ _).mp h with ⟨bnd, hbnd, h⟩
  rcases (except_bind_ok _ _ _).mp hbnd with ⟨env', hintro, hbnd2⟩
  rcases (except_bind_ok _ _ _).mp hbnd2 with ⟨value, hop, hbnd3⟩
  simp only [pure_eq_ok, Except.ok.injEq] at hbnd3
  subst hbnd3
  rcases (except_bind_ok _ _ _).mp hop with ⟨consequences, hcons, hop2⟩
  rcases (except_bind_ok _ _ _).mp hop2 with ⟨condsRev, hcondsRev, hop3⟩
  simp only [pure_eq_ok, Except.ok.injEq] at hop3
  subst hop3
  simp only [pure_eq_ok, Except.ok.injEq] at h
  subst h
  rcases lowerGoalList_reverse env' clause.conditions condsRev hcondsRev
    with ⟨conds, hconds, rfl⟩
  refine ⟨env', conds, hintro, hconds, ?_⟩
  intro pc hpc
  rcases List.mem_map.mp hpc with ⟨imp, himp, rfl⟩
  rcases List.mem_map.mp himp with ⟨consequence, hcons', rfl⟩
  exact ⟨rfl, rfl, rfl, rfl⟩

/-- Witness for C9: the concrete clause `clauseC9` (consequence `Reveal`,
conditions `Reveal` then `not Reveal`) lowers to one clause whose
conditions appear reversed, with priority `High` and no constraints. -/
theorem claim9_witness :
    lowerClause emptyEnv clauseC9
      = .ok [{ implication :=
          { binders := []
            value :=
              { consequence := LDomainGoal.reveal
                conditions := [LGoal.not (LGoal.all [LGoal.domainGoal .reveal]),
                               LGoal.all [LGoal.domainGoal .reveal]]
                constraints := []
                priority := ClausePriority.high } } }]
    ∧ ∃ env' conds,
        emptyEnv.introduce (clauseC9.variable_kinds.map lowerAVariableKind) = .ok env'
        ∧ lowerGoalList env' clauseC9.conditions = .ok conds
        ∧ ∀ pc ∈ [({ implication :=
              { binders := ([] : List VariableKind)
                value :=
                  { consequence := LDomainGoal.reveal
                    conditions := [LGoal.not (LGoal.all [LGoal.domainGoal .reveal]),
                                   LGoal.all [LGoal.domainGoal .reveal]]
                    constraints := []
                    priority := ClausePriority.high } } } : LProgramClause)],
            pc.implication.binders
              = (clauseC9.variable_kinds.map lowerAVariableKind).map Prod.fst
            ∧ pc.implication.value.conditions = conds.reverse
            ∧ pc.implication.value.constraints = []
            ∧ pc.implication.value.priority = .high := by
  have h : lowerClause emptyEnv clauseC9
      = .ok [{ implication :=
          { binders := []
            value :=
              { consequence := LDomainGoal.reveal
                conditions := [LGoal.not (LGoal.all [LGoal.domainGoal .reveal]),
                               LGoal.all [LGoal.domainGoal .reveal]]
                constraints := []
                priority := ClausePriority.high } } }] := by
    simp [lowerClause, Env.in_binders, Env.introduce, newBinderEntries, collectMap,
      insertMap, findVal, clauseC9, emptyEnv, lowerDomainGoal, lowerGoalList,
      lowerGoal, lowerLeafGoal]
  exact ⟨h, claim9_custom_clause emptyEnv clauseC9 _ h⟩

/-! ## Auto-trait rejection (C10) -/

/-- Claim C10, amended: ill-formed auto traits are rejected with hard
errors — an auto trait declaring an associated type fails in `gather_ids`
with `AutoTraitAssociatedTypes`; an auto trait whose parameter list
introduces cleanly (distinct, unshadowed names) and declares any parameter
beyond the synthetic `Self` fails with `AutoTraitParameters`; an auto
trait with only `Self` but a non-empty where-clause list fails with
`AutoTraitWhereClauses`. The amendment forced by the counterexample: when
the parameter list itself is invalid (duplicate or shadowing names), the
binder introduction fails first and that earlier hard error
(`DuplicateOrShadowedParameters`) is the one reported. -/
theorem claim10_auto_trait_errors :
    (∀ d : ATraitDefn, d.auto = true → d.assoc_ty_defns ≠ [] →
       gatherTraitDefnCheck d = .error (.autoTraitAssociatedTypes d.name))
    ∧ (∀ (d : ATraitDefn) (env env' : Env), d.auto = true → d.variable_kinds ≠ [] →
       env.introduce (traitAllParameters d) = .ok env' →
       lower_trait d env = .error (.autoTraitParameters d.name))
    ∧ (∀ (d : ATraitDefn) (env env' : Env), d.auto = true → d.variable_kinds = [] →
       d.where_clauses ≠ [] →
       env.introduce (traitAllParameters d) = .ok env' →
       lower_trait d env = .error (.autoTraitWhereClauses d.name))
    ∧ (∀ (d : ATraitDefn) (env : Env) (e : RustIrError),
       env.introduce (traitAllParameters d) = .error e →
       lower_trait d env = .error e) := by
  refine ⟨?_, ?_, ?_, ?_⟩
  · intro d hauto hassoc
    rcases hd : d.assoc_ty_defns with _ | ⟨a, as⟩
    · exact absurd hd hassoc
    · simp [gatherTraitDefnCheck, hauto, hd]
  · intro d env env' hauto hvk hintro
    have hlen : (traitAllParameters d).length > 1 := by
      rcases hd : d.variable_kinds with _ | ⟨v, vs⟩
      · exact absurd hd hvk
      · simp [traitAllParameters, hd]
    simp only [lower_trait, Env.in_binders, hintro, ok_bind, hauto, if_true,
      if_pos hlen]
    simp
  · intro d env env' hauto hvk hwc hintro
    have hlen : ¬ ((traitAllParameters d).length > 1) := by
      simp [traitAllParameters, hvk]
    rcases hd : d.where_clauses with _ | ⟨w, ws⟩
    · exact absurd hd hwc
    · simp only [lower_trait, Env.in_binders, hintro, ok_bind, hauto, if_true,
        if_neg hlen, hd]
      simp
  · intro d env e hintro
    simp only [lower_trait, Env.in_binders, hintro, error_bind]

/-- Counterexample for C10 as stated: the auto trait `traitC10dup`
declares two parameters with the same name; introducing its binders fails
first, so `lower_trait` reports `DuplicateOrShadowedParameters`, not
`AutoTraitParameters`. -/
theorem claim10_counterexample :
    lower_trait traitC10dup emptyEnv = .error .duplicateOrShadowedParameters
    ∧ RustIrError.duplicateOrShadowedParameters ≠ .autoTraitParameters 7 := by
  exact ⟨rfl, by decide⟩

/-- Witness for the amended C10 at concrete inputs: `traitC10a` fails the
gather check with `AutoTraitAssociatedTypes`, `traitC10b` fails lowering
with `AutoTraitParameters`, and `traitC10c` fails lowering with
`AutoTraitWhereClauses`. -/
theorem claim10_witness :
    gatherTraitDefnCheck traitC10a = .error (.autoTraitAssociatedTypes 7)
    ∧ emptyEnv.introduce (traitAllParameters traitC10b)
        = .ok { emptyEnv with
            parameter_map := [(0, (VariableKind.ty .general, ⟨0, 0⟩)),
                              (8, (VariableKind.ty .general, ⟨0, 1⟩))] }
    ∧ lower_trait traitC10b emptyEnv = .error (.autoTraitParameters 7)
    ∧ emptyEnv.introduce (traitAllParameters traitC10c)
        = .ok { emptyEnv with
            parameter_map := [(0, (VariableKind.ty .general, ⟨0, 0⟩))] }
    ∧ lower_trait traitC10c emptyEnv = .error (.autoTraitWhereClauses 7) := by
  refine ⟨claim10_auto_trait_errors.1 traitC10a rfl (by simp [traitC10a]),
    rfl, ?_, rfl, ?_⟩
  · exact claim10_auto_trait_errors.2.1 traitC10b emptyEnv
      { emptyEnv with
        parameter_map := [(0, (VariableKind.ty .general, ⟨0, 0⟩)),
                          (8, (VariableKind.ty .general, ⟨0, 1⟩))] }
      rfl (by simp [traitC10b]) rfl
  · exact claim10_auto_trait_errors.2.2.1 traitC10c emptyEnv
      { emptyEnv with
        parameter_map := [(0, (VariableKind.ty .general, ⟨0, 0⟩))] }
      rfl rfl (by simp [traitC10c]) rfl

end Chalk
